import Mathlib

/-!
Verification development for the event-driver message-broker transport.

The definitions below are a shallow embedding of the repository's source:
  * the tagged binary serialization protocol and its variable-length
    integer (VQL) encoding (`src/protocol.ts`);
  * the byte-cursor reader / append-only writer (`BufferReader`,
    `BufferWriter`);
  * the signed message envelope parser (`parseMessage` in
    `src/messages.ts`);
  * the typed event emitter (`src/emitter.ts`);
  * the TCP server connection registry lifecycle (`src/inet.ts` /
    `src/socket.ts`);
  * the webhook HTTP request handler (`src/webhook.ts`).

Buffers are modelled as `List Nat` (byte values), JavaScript 32-bit
bitwise arithmetic as explicit `Nat`/`Int` arithmetic modulo 2^32, and
exceptions as `Except` with one error constructor per distinct error
path of the source.
-/

/-- Error values corresponding to the distinct exception paths of the
source (`ERR_END_OF_STREAM`, `ERR_UNSUPPORTED_OPERATION`,
`ERR_INVALID_ARGUMENT`, `ERR_INVALID_SIGNATURE`, `NotImplemented`,
`ERR_RESOURCE_DISPOSED`, the raw `throw void 0` of the emitter, the
assertion failure of `assertUnsignedInteger`, and the `TypeError` of
`Buffer.equals` on a non-buffer argument).  `fuelExhausted` is an
artefact of the fuel-based embedding of the recursive decoder and
corresponds to no source behaviour. -/
inductive PErr where
  | endOfStream
  | unsupportedOperation
  | invalidArgument
  | invalidSignature
  | notImplemented
  | resourceDisposed
  | thrownUndefined
  | assertionFailed
  | invalidType
  | fuelExhausted
deriving DecidableEq, Repr

/-- JavaScript `ToUint32`: the unsigned 32-bit value of an integer. -/
def toUint32 (n : Int) : Nat := (n % 4294967296).toNat

/-- Reinterpret an unsigned 32-bit value as a signed 32-bit integer. -/
def toInt32u (u : Nat) : Int :=
  if u < 2147483648 then (u : Int) else (u : Int) - 4294967296

/-- JavaScript `ToInt32` of an integer (the value of `n | 0`). -/
def toInt32 (n : Int) : Int := toInt32u (toUint32 n)

/-- `bitwise.or` from `src/@internals/bitwise.ts`: JavaScript `x | y`
(both operands converted to 32-bit, result signed 32-bit).  Only the
`y = 0` instance is exercised by `serialize`, where it reduces to
`ToInt32 x`. -/
def bitwiseOr (x y : Int) : Int :=
  toInt32u ((toUint32 x) ||| (toUint32 y))

/-- The values the serialization protocol can carry, as dispatched on by
`serialize`'s branch ladder.  String/object bodies are carried as their
encoded byte sequences: the external JSON codec
(`jsonSafeStringify`/`jsonSafeParser`) and `Marshalling`
(`src/@internals/marshalling.ts`, not under `src/`) are modelled as the
identity on the encoded body bytes, faithful to the spec's statement
that these bodies round-trip through the JSON path.  `vint` carries an
integral JavaScript number. -/
inductive SValue where
  | vnull : SValue
  | vstr : List Nat → SValue
  | vbuf : List Nat → SValue
  | vint : Int → SValue
  | varr : List SValue → SValue
  | vmarshall : List Nat → SValue
  | vobj : List Nat → SValue

/-- `BufferReader`: immutable backing bytes plus a monotone cursor. -/
structure BufferReader where
  buf : List Nat
  pos : Nat
deriving DecidableEq, Repr

/-- `BufferReader.read`: fails with `EndOfStream` when the cursor has
already consumed the backing bytes; with no byte count it consumes the
rest and returns the whole backing buffer (`subarray(0)`); with a count
it asserts the count is a non-negative integer and returns the chunk
`subarray(cursor, cursor+bytes)` (clamped at the end of the buffer),
advancing the cursor by the length of the chunk actually produced. -/
def BufferReader.read (r : BufferReader) (bytes : Option Int) :
    Except PErr (List Nat × BufferReader) :=
  if r.buf.length ≤ r.pos then .error .endOfStream
  else
    match bytes with
    | none => .ok (r.buf, { r with pos := r.buf.length })
    | some n =>
      if n < 0 then .error .assertionFailed
      else
        let chunk := (r.buf.drop r.pos).take n.toNat
        .ok (chunk, { r with pos := r.pos + chunk.length })

/-- `BufferWriter`: an ordered sequence of written chunks. -/
structure BufferWriter where
  buffers : List (List Nat)
deriving DecidableEq, Repr

/-- `BufferWriter.write`: append one chunk. -/
def BufferWriter.write (w : BufferWriter) (chunk : List Nat) : BufferWriter :=
  ⟨w.buffers ++ [chunk]⟩

/-- `BufferWriter.buffer`: the lazy concatenation of the chunks. -/
def BufferWriter.buffer (w : BufferWriter) : List Nat :=
  w.buffers.flatten

/-- `BufferWriter.drain`: return the concatenated bytes and reset. -/
def BufferWriter.drain (w : BufferWriter) : List Nat × BufferWriter :=
  (w.buffers.flatten, ⟨[]⟩)

/-- The byte chunk written by `writeInt32VQL` (the `scratch` buffer):
little-endian base-128, 7 data bits per byte, continuation bit on all
but the last byte.  Structural in a fuel argument so that it reduces in
the kernel; `encodeVQLAux v v` performs exactly the source's loop
because the iteration count of `v >>>= 7` never exceeds `v`. -/
def encodeVQLAux : Nat → Nat → List Nat
  | 0, v => [v % 128]
  | fuel + 1, v =>
    if v < 128 then [v]
    else (v % 128 + 128) :: encodeVQLAux fuel (v / 128)

/-- VQL encoding of an unsigned value. -/
def encodeVQL (v : Nat) : List Nat := encodeVQLAux v v

/-- `writeInt32VQL`'s output chunk for a (possibly negative) 32-bit
value: the source special-cases `0` to the single zero byte, and
otherwise loops over `value >>>= 7`, i.e. over the unsigned 32-bit
representation of the value. -/
def vqlScratch (value : Int) : List Nat :=
  if value = 0 then [0] else encodeVQL (toUint32 value)

/-- `writeInt32VQL`: write the VQL chunk to the writer. -/
def writeInt32VQL (w : BufferWriter) (value : Int) : BufferWriter :=
  w.write (vqlScratch value)

/-- The loop of `readIntVQL`, structural in a fuel argument so that it
reduces in the kernel.  Each iteration performs `reader.read(1)`,
accumulates `value |= (next[0] & 0x7F) << n` in unsigned-32 arithmetic
(JavaScript `<<` reduces the shift count modulo 32 and the result modulo
2^32; `|` on two 32-bit values is the same bit operation signed or
unsigned), and stops at the first byte with the continuation bit clear,
returning the accumulated value reinterpreted as a signed 32-bit
integer.  The wrapper below supplies `fuel = length - pos`, which is an
upper bound on the number of 1-byte reads that can succeed, so the
`fuel = 0` case coincides with the reader's own end-of-stream error. -/
def readIntVQLAux : Nat → BufferReader → Nat → Nat → Except PErr (Int × BufferReader)
  | 0, _, _, _ => .error .endOfStream
  | fuel + 1, r, n, value =>
    match r.read (some 1) with
    | .error e => .error e
    | .ok (chunk, r') =>
      let b := chunk.headD 0
      let value' := value ||| (((b &&& 127) <<< (n % 32)) % 4294967296)
      if b &&& 128 = 0 then .ok (toInt32u value', r')
      else readIntVQLAux fuel r' (n + 7) value'

/-- `readIntVQL`. -/
def readIntVQL (r : BufferReader) : Except PErr (Int × BufferReader) :=
  readIntVQLAux (r.buf.length - r.pos) r 0 0

/-- Decimal byte text of an integer (the JSON encoding of an integral
number on the generic-object fallback path). -/
def jsonNumberBytes (n : Int) : List Nat :=
  (toString n).toList.map Char.toNat

mutual

/-- `serialize`, rendered as the byte sequence appended to the writer
(the writer is append-only, so the program is determined by the bytes
it writes).  The branch ladder follows the source's fixed priority
order: null/undefined, string, binary buffer, number with
`bitwise.or(data, 0) === data`, array, marshalled object, generic JSON
object.  For a number outside the 32-bit bitwise-identity condition the
source JSON-encodes its text; that body is carried abstractly as the
decimal byte text of the integer. -/
def serialize : SValue → List Nat
  | .vnull => [0]
  | .vstr s => 1 :: (vqlScratch s.length ++ s)
  | .vbuf b => 6 :: (vqlScratch b.length ++ b)
  | .vint n =>
    if bitwiseOr n 0 = n then 2 :: vqlScratch n
    else
      3 :: (vqlScratch (jsonNumberBytes n).length ++ jsonNumberBytes n)
  | .varr xs => 4 :: (vqlScratch xs.length ++ serializeList xs)
  | .vmarshall body => 5 :: (vqlScratch body.length ++ body)
  | .vobj body => 3 :: (vqlScratch body.length ++ body)

/-- The bytes written by the `for` loop of `serialize`'s array case. -/
def serializeList : List SValue → List Nat
  | [] => []
  | v :: vs => serialize v ++ serializeList vs

end

/-- The `for(let i = 0; i < len; i++)` element loop of `deserialize`'s
array case, parameterized by the element decoder. -/
def deserializeLoop (p : BufferReader → Except PErr (SValue × BufferReader)) :
    Nat → BufferReader → Except PErr (List SValue × BufferReader)
  | 0, r => .ok ([], r)
  | k + 1, r => do
    let (v, r') ← p r
    let (vs, r'') ← deserializeLoop p k r'
    .ok (v :: vs, r'')

/-- `deserialize`: read one tag byte and dispatch.  Fuel bounds the
nesting depth of arrays (the source recursion terminates because every
recursive call first consumes the element's tag byte); `fuelExhausted`
never occurs when the fuel exceeds the value's nesting depth.  A
negative decoded length reaches `reader.read` (which asserts) for the
length-prefixed cases, and produces zero loop iterations in the array
case, exactly as in the source. -/
def deserialize : Nat → BufferReader → Except PErr (SValue × BufferReader)
  | 0, _ => .error .fuelExhausted
  | fuel + 1, r => do
    let (tagChunk, r1) ← r.read (some 1)
    match tagChunk.headD 0 with
    | 0 => .ok (.vnull, r1)
    | 1 => do
      let (len, r2) ← readIntVQL r1
      let (s, r3) ← r2.read (some len)
      .ok (.vstr s, r3)
    | 2 => do
      let (v, r2) ← readIntVQL r1
      .ok (.vint v, r2)
    | 6 => do
      let (len, r2) ← readIntVQL r1
      let (b, r3) ← r2.read (some len)
      .ok (.vbuf b, r3)
    | 4 => do
      let (len, r2) ← readIntVQL r1
      let k := if len < 0 then 0 else len.toNat
      let (vs, r3) ← deserializeLoop (deserialize fuel) k r2
      .ok (.varr vs, r3)
    | 5 => do
      let (len, r2) ← readIntVQL r1
      let (body, r3) ← r2.read (some len)
      .ok (.vmarshall body, r3)
    | 3 => do
      let (len, r2) ← readIntVQL r1
      let (body, r3) ← r2.read (some len)
      .ok (.vobj body, r3)
    | _ => .error .unsupportedOperation

mutual

/-- Values in the domain of the round-trip property: every `vint` is a
32-bit bitwise-identical number (the only numbers the source tags as
`UnsignedInt`) and every length field fits a signed 32-bit decode. -/
def supportedB : SValue → Bool
  | .vnull => true
  | .vstr s => decide (s.length < 2147483648)
  | .vbuf b => decide (b.length < 2147483648)
  | .vint n => decide (bitwiseOr n 0 = n)
  | .varr xs => decide (xs.length < 2147483648) && supportedListB xs
  | .vmarshall b => decide (b.length < 2147483648)
  | .vobj b => decide (b.length < 2147483648)

/-- `supportedB` over the elements of an array. -/
def supportedListB : List SValue → Bool
  | [] => true
  | v :: vs => supportedB v && supportedListB vs

end

mutual

/-- True when the depth-first-last length-prefixed body of the
serialized value is nonempty, so that decoding never has to perform a
zero-byte read at the very end of the buffer (which `BufferReader.read`
rejects with `EndOfStream`). -/
def goodTailB : SValue → Bool
  | .vnull => true
  | .vint _ => true
  | .vstr s => !s.isEmpty
  | .vbuf b => !b.isEmpty
  | .vmarshall b => !b.isEmpty
  | .vobj b => !b.isEmpty
  | .varr xs => goodTailListB xs

/-- `goodTailB` of the last element of an array (empty arrays are
fine: their element loop performs no read). -/
def goodTailListB : List SValue → Bool
  | [] => true
  | [v] => goodTailB v
  | _ :: vs => goodTailListB vs

end

mutual

/-- Nesting depth of a value: a fuel bound for `deserialize`. -/
def depthS : SValue → Nat
  | .vnull => 1
  | .vstr _ => 1
  | .vbuf _ => 1
  | .vint _ => 1
  | .vmarshall _ => 1
  | .vobj _ => 1
  | .varr xs => depthListS xs + 1

/-- Maximum depth over the elements of an array. -/
def depthListS : List SValue → Nat
  | [] => 0
  | v :: vs => max (depthS v) (depthListS vs)

end

/-- Generic lookup in an insertion-ordered association list (the model
of a JavaScript `Map` with value-compared string keys). -/
def mapLookup {α : Type} : List (String × α) → String → Option α
  | [], _ => none
  | (k', v) :: rest, k => if k' = k then some v else mapLookup rest k

/-- `Map.set`: replace in place when the key exists, append otherwise. -/
def mapSet {α : Type} : List (String × α) → String → α → List (String × α)
  | [], k, v => [(k, v)]
  | (k', v') :: rest, k, v =>
    if k' = k then (k, v) :: rest else (k', v') :: mapSet rest k v

/-- `Map.delete`: remove the entry, reporting whether it existed. -/
def mapDelete {α : Type} : List (String × α) → String → List (String × α) × Bool
  | [], _ => ([], false)
  | (k', v') :: rest, k =>
    if k' = k then (rest, true)
    else
      let (m, found) := mapDelete rest k
      ((k', v') :: m, found)

/-- A listener callback as held by the emitter.  JavaScript compares
callbacks by reference, so functions and `AbstractEvent` wrapper objects
are modelled by identity tokens: `bare f` is a plain function with
identity `f`; `wrapped o f` is an `AbstractEvent` object with object
identity `o` whose `$inspect().callback` is the function with identity
`f`. -/
inductive CB where
  | bare : Nat → CB
  | wrapped : Nat → Nat → CB
deriving DecidableEq, Repr

/-- The function a dispatch of this subscription ultimately invokes. -/
def CB.underlying : CB → Nat
  | .bare f => f
  | .wrapped _ f => f

/-- One entry of an emitter's per-event subscription list
(`EventListener` in the source). -/
structure Listener where
  callback : CB
  thisArgs : Option Nat
  once : Bool
deriving DecidableEq, Repr

/-- The observable state of an `EventEmitter`. -/
structure EventEmitter where
  state : Int
  disposed : Bool
  maxListeners : Nat
  listeners : List (String × List Listener)
deriving DecidableEq, Repr

/-- The constructor: `maxListeners = _options?.maxListeners || 32`
(so an explicit `0` also falls back to 32, `0` being falsy). -/
def EventEmitter.init (maxListenersOpt : Option Nat) : EventEmitter :=
  { state := 0
    disposed := false
    maxListeners := match maxListenersOpt with
      | none => 32
      | some 0 => 32
      | some v => v
    listeners := [] }

/-- The duplicate test of `addListener` (`prev.some(...)`): two wrapper
objects compare by wrapper identity; a wrapper against a bare callback
compares the wrapper's underlying callback with the bare one; two bare
callbacks compare by identity. -/
def dedupMatch (callback : CB) (item : CB) : Bool :=
  match item, callback with
  | .wrapped o _, .wrapped o' _ => o == o'
  | .wrapped _ f, .bare g => f == g
  | .bare f, .wrapped _ g => f == g
  | .bare f, .bare g => f == g

/-- `EventEmitter.addListener`.  A disposed emitter throws
(`throw void 0`); an absent event name first gets an empty list; a
duplicate (per `dedupMatch`) returns without change; a list already at
`maxListeners` throws; otherwise the subscription is pushed at the end.
The error branches of this functional model do not retain the
empty-list insertion the source performs before throwing; no claim
depends on that partial mutation. -/
def EventEmitter.addListener (s : EventEmitter) (event : String) (callback : CB)
    (thisArgs : Option Nat) (once : Bool) : Except PErr EventEmitter :=
  if s.disposed then .error .thrownUndefined
  else
    let ls1 := if (mapLookup s.listeners event).isSome then s.listeners
               else mapSet s.listeners event []
    let prev := (mapLookup ls1 event).getD []
    if prev.any (fun item => dedupMatch callback item.callback) then
      .ok { s with listeners := ls1 }
    else if s.maxListeners ≤ prev.length then .error .thrownUndefined
    else .ok { s with listeners := mapSet ls1 event (prev ++ [⟨callback, thisArgs, once⟩]) }

/-- `EventEmitter.removeListener`: `findIndex` compares the stored
callback against the argument by reference (no unwrapping), and splices
the first match out of the list kept in the map. -/
def EventEmitter.removeListener (s : EventEmitter) (event : String) (callback : CB) :
    Except PErr (EventEmitter × Bool) :=
  if s.disposed then .error .thrownUndefined
  else
    match mapLookup s.listeners event with
    | none => .ok (s, false)
    | some prev =>
      match prev.findIdx? (fun item => item.callback == callback) with
      | none => .ok (s, false)
      | some i => .ok ({ s with listeners := mapSet s.listeners event (prev.eraseIdx i) }, true)

/-- `EventEmitter.removeManyListeners`: delete the whole entry. -/
def EventEmitter.removeManyListeners (s : EventEmitter) (event : String) :
    Except PErr (EventEmitter × Bool) :=
  if s.disposed then .error .thrownUndefined
  else
    let (m, found) := mapDelete s.listeners event
    .ok ({ s with listeners := m }, found)

/-- `EventEmitter.removeAllListeners`. -/
def EventEmitter.removeAllListeners (s : EventEmitter) : Except PErr EventEmitter :=
  if s.disposed then .error .thrownUndefined
  else .ok { s with listeners := [], state := s.state + 1 }

/-- `EventEmitter.setMaxListeners`. -/
def EventEmitter.setMaxListeners (s : EventEmitter) (value : Nat) : Except PErr EventEmitter :=
  if s.disposed then .error .thrownUndefined
  else .ok { s with maxListeners := value }

/-- `EventEmitter.emit` for an event given by name.  Returns the
boolean result, the successor state, and (as an observation of the
dispatch loop) the ordered list of subscription callbacks dispatched
to.  There is no disposed check; the result is `false` exactly when the
name has no entry in the listeners map; once-subscriptions are removed
in a batch after the full dispatch loop.  Payload and target are
opaque to the dispatch bookkeeping and are omitted. -/
def EventEmitter.emit (s : EventEmitter) (event : String) :
    Bool × EventEmitter × List CB :=
  match mapLookup s.listeners event with
  | none => (false, s, [])
  | some listeners =>
    let dispatched := listeners.map (fun l => l.callback)
    let s' := if listeners.any (fun l => l.once) then
                { s with listeners := mapSet s.listeners event (listeners.filter (fun l => !l.once)) }
              else s
    (true, s', dispatched)

/-- `EventEmitter.dispose`: clear all subscriptions and mark the
emitter permanently unusable for mutation. -/
def EventEmitter.dispose (s : EventEmitter) : EventEmitter :=
  if s.disposed then s
  else { s with listeners := [], disposed := true, state := -1 }

/-- The envelope produced by a successful `parseMessage`. -/
structure ParsedMsg where
  topic : SValue
  headers : SValue
  payload : SValue

/-- UTF-8 bytes of the string literal the algorithm switch matches. -/
def sha512Name : List Nat := [115, 104, 97, 53, 49, 50]

/-- Whether the decoded sign-algorithm value reaches the working
`'sha512'` switch case of `sign`: a number is first mapped through
`SignAlgorithmsToString` (only `7` maps to `'sha512'`); any other value
is switched on directly, so only the string `'sha512'` matches; every
other value falls to the `NotImplemented` default. -/
def algIsSha512 : SValue → Bool
  | .vint n => n == 7
  | .vstr s => s == sha512Name
  | _ => false

/-- The `sign` helper of `src/messages.ts`.  It serializes the headers
and then the payload (trying `Marshalling.encode` first and falling
back to the raw payload; `Marshalling` is not under `src/` and is
modelled by the abstract `marshalEnc` parameter), then streams the
concatenated bytes through the digest.  The source feeds the hash in
3072-byte chunks, which the spec notes is functionally equivalent to
hashing the concatenation at once; the digest itself (`node:crypto`) is
the abstract `hash` parameter. -/
def signModel (hash : List Nat → List Nat) (marshalEnc : SValue → Option SValue)
    (alg : SValue) (payload : SValue) (headers : SValue) : Except PErr (List Nat) :=
  let toSign := serialize headers ++ serialize ((marshalEnc payload).getD payload)
  if algIsSha512 alg then .ok (hash toSign) else .error .notImplemented

/-- The first four sequential decodes of `parseMessage`: topic,
encrypted flag, headers, payload, in that exact order, returning the
reader position after them.  The fuel `|msg| + 1` strictly exceeds the
nesting depth any decode can reach, since every recursion level first
consumes a tag byte. -/
def parseStages (msg : List Nat) :
    Except PErr (SValue × SValue × SValue × SValue × BufferReader) := do
  let fuel := msg.length + 1
  let (topic, r1) ← deserialize fuel ⟨msg, 0⟩
  let (encVal, r2) ← deserialize fuel r1
  let (headers, r3) ← deserialize fuel r2
  let (payload0, r4) ← deserialize fuel r3
  .ok (topic, encVal, headers, payload0, r4)

/-- The source's `deserialize(reader) === 1` test on the decoded
encrypted flag: strict equality with the number `1`. -/
def isFlagOne : SValue → Bool
  | .vint 1 => true
  | _ => false

/-- The payload-recovery step of `parseMessage`: when the decoded
encrypted flag was the number `1` and the decoded payload is binary, an
encryption key is mandatory (`ERR_INVALID_ARGUMENT` otherwise), and the
payload is decrypted (`crypto.decrypt`, external, the abstract
`decrypt` parameter) and deserialized again. -/
def resolvePayload (decrypt : List Nat → List Nat → List Nat) (isEncrypted : Bool)
    (payload0 : SValue) (encryptionKey : Option (List Nat)) : Except PErr SValue :=
  if isEncrypted then
    match payload0 with
    | .vbuf pb =>
      match encryptionKey with
      | none => .error .invalidArgument
      | some k =>
        let decrypted := decrypt k pb
        match deserialize (decrypted.length + 1) ⟨decrypted, 0⟩ with
        | .error e => .error e
        | .ok (p, _) => .ok p
    | _ => .ok payload0
  else .ok payload0

/-- `parseMessage`: decode topic, flag, headers, payload, recover the
payload, decode the algorithm id, recompute the signature, decode the
stored signature and compare byte-for-byte (`Buffer.equals` throws a
type error on a non-buffer argument).  A mismatch raises
`ERR_INVALID_SIGNATURE`; success returns the frozen result. -/
def parseMessage (hash : List Nat → List Nat) (marshalEnc : SValue → Option SValue)
    (decrypt : List Nat → List Nat → List Nat) (msg : List Nat)
    (encryptionKey : Option (List Nat)) : Except PErr ParsedMsg := do
  let fuel := msg.length + 1
  let (topic, encVal, headers, payload0, r4) ← parseStages msg
  let payload ← resolvePayload decrypt (isFlagOne encVal) payload0 encryptionKey
  let (sa, r5) ← deserialize fuel r4
  let cs ← signModel hash marshalEnc sa payload headers
  let (sigV, _) ← deserialize fuel r5
  match sigV with
  | .vbuf sig => if cs = sig then .ok ⟨topic, headers, payload⟩ else .error .invalidSignature
  | _ => .error .invalidType

/-- The per-connection flags of a `TCPSocket`. -/
structure TCPSocketState where
  closed : Bool
  disposed : Bool
  flushing : Bool
deriving DecidableEq, Repr

/-- `TCPSocket.close`: rejects a disposed socket
(`ERR_RESOURCE_DISPOSED`), is a no-op when already closed, and
otherwise marks the socket closed (the graceful `end` and the `close`
event are asynchronous I/O, modelled by the resulting flag). -/
def TCPSocketState.close (sk : TCPSocketState) : Except PErr TCPSocketState :=
  if sk.disposed then .error .resourceDisposed
  else if sk.closed then .ok sk
  else .ok { sk with closed := true }

/-- The value triple of a `SocketAddr` as compared by the server's
registry scan (`address`, `port`, `type`). -/
structure SocketAddrV where
  address : String
  port : Nat
  family : Nat
deriving DecidableEq, Repr

/-- The observable state of a `TCPServer`: its connection registry
(`#clients`), its settings map, and its lifecycle flags.  The registry
is keyed by `SocketAddr` objects created fresh on every accept, so map
insertion never coalesces entries; it is modelled as an append list. -/
structure TCPServerState where
  clients : List (SocketAddrV × TCPSocketState)
  settings : List (String × Nat)
  closed : Bool
  disposed : Bool
  listening : Bool
deriving DecidableEq, Repr

/-- The connection handler installed by the `TCPServer` constructor:
when the cancellation token already fired, the raw stream is ended and
destroyed and nothing is registered; otherwise a fresh connection
object is registered under a fresh address key. -/
def TCPServerState.accept (w : TCPServerState) (cancelled : Bool)
    (remote : SocketAddrV) : TCPServerState :=
  if cancelled then w
  else { w with clients := w.clients ++ [(remote, ⟨false, false, false⟩)] }

/-- The effect on the server's state of client connection `i` closing:
the socket object transitions through `TCPSocket.close`, and the server
performs nothing — no handler removes the registry entry. -/
def TCPServerState.clientClose (w : TCPServerState) (i : Nat) :
    Except PErr TCPServerState :=
  match w.clients.get? i with
  | none => .ok w
  | some e =>
    match e.2.close with
    | .error err => .error err
    | .ok sk' => .ok { w with clients := w.clients.set i (e.1, sk') }

/-- The `for(const socket of this.#clients.values()) socket.close()`
loop of `TCPServer.dispose`. -/
def closeAllClients : List (SocketAddrV × TCPSocketState) →
    Except PErr (List (SocketAddrV × TCPSocketState))
  | [] => .ok []
  | (a, sk) :: rest => do
    let sk' ← sk.close
    let rest' ← closeAllClients rest
    .ok ((a, sk') :: rest')

/-- `TCPServer.dispose`: once only; closes the server handle, clears
the settings, force-closes every registered connection and clears the
registry.  The former registry entries (now closed) are returned as an
observation of the loop's effect on the connection objects.  An error
while closing a client (only possible for an externally disposed
client) aborts the model without retaining the source's partial
mutation; no claim depends on that partial state. -/
def TCPServerState.dispose (w : TCPServerState) :
    Except PErr (TCPServerState × List (SocketAddrV × TCPSocketState)) :=
  if w.disposed then .ok (w, [])
  else do
    let formerClients ← closeAllClients w.clients
    .ok ({ w with closed := true, settings := [], clients := [], disposed := true },
         formerClients)

/-- Webhook endpoint lifecycle flags. -/
structure WebhookState where
  paused : Bool
  closed : Bool
  disposed : Bool
  listening : Bool
deriving DecidableEq, Repr

/-- The webhook options consulted per request. -/
structure WebhookOpts where
  mask : Option (List Nat)
  maxMessageSize : Option Nat
  encryptionKey : Option (List Nat)

/-- An incoming HTTP request as seen by the handler: its method, the
pathname component of its URL, and the body chunks delivered by the
`data` events. -/
structure HttpRequest where
  method : String
  pathname : String
  bodyChunks : List (List Nat)

/-- `String.prototype.toLowerCase` (ASCII range suffices here). -/
def jsToLower (s : String) : String := ⟨s.toList.map Char.toLower⟩

/-- `url.pathname.replace(/\//g, '')`: delete every slash. -/
def stripSlashes (s : String) : String :=
  ⟨s.toList.filter (fun c => c ≠ '/')⟩

/-- Modelled from the spec: the external `unmask` helper of
`@ts-overflow/node.std` (glossary: a byte sequence XORed, length-padded,
over the payload). -/
def unmaskChunk (mask : List Nat) (chunk : List Nat) : List Nat :=
  chunk.mapIdx (fun i b => b ^^^ (if mask.length = 0 then 0 else mask.getD (i % mask.length) 0))

/-- `WebhookServer.#handleIncoming`, as the HTTP status code it answers
with.  Order of checks follows the source: not listening, disposed
(both 503), `OPTIONS` preflight (204), non-`POST` method (405), path
whose slash-stripped form is not `webhook` (418), body shorter than 4
bytes (412), body over the configured maximum (413), then envelope
parsing (202 on success, 422 on any parse failure).  Method checks are
on the lowercased method; each body chunk is unmasked independently
when a mask is configured. -/
def WebhookServer.handleIncoming (hash : List Nat → List Nat)
    (marshalEnc : SValue → Option SValue) (decrypt : List Nat → List Nat → List Nat)
    (st : WebhookState) (opts : WebhookOpts) (req : HttpRequest) : Nat :=
  if !st.listening then 503
  else if st.disposed then 503
  else if jsToLower req.method = "options" then 204
  else if jsToLower req.method ≠ "post" then 405
  else if stripSlashes req.pathname ≠ "webhook" then 418
  else
    let body := (req.bodyChunks.map (fun c =>
      match opts.mask with
      | some m => unmaskChunk m c
      | none => c)).flatten
    if body.length < 4 then 412
    else if (match opts.maxMessageSize with
             | some mx => decide (mx < body.length)
             | none => false) then 413
    else
      match parseMessage hash marshalEnc decrypt body opts.encryptionKey with
      | .ok _ => 202
      | .error _ => 422

/-- Fold a sequence of writes into a writer. -/
def BufferWriter.writeMany (w : BufferWriter) (chunks : List (List Nat)) : BufferWriter :=
  chunks.foldl BufferWriter.write w

/-! ### Helper lemmas: numeric conversions -/

theorem toUint32_lt (n : Int) : toUint32 n < 4294967296 := by
  unfold toUint32
  have h1 : 0 ≤ n % 4294967296 := Int.emod_nonneg n (by norm_num)
  have h2 : n % 4294967296 < 4294967296 := Int.emod_lt_of_pos n (by norm_num)
  omega

theorem toUint32_ofNat (n : Nat) (h : n < 4294967296) : toUint32 (n : Int) = n := by
  unfold toUint32
  rw [Int.emod_eq_of_lt (by positivity) (by exact_mod_cast h)]
  simp

theorem toInt32u_ofNat (n : Nat) (h : n < 2147483648) : toInt32u n = (n : Int) := by
  unfold toInt32u
  rw [if_pos h]

theorem bitwiseOr_zero (n : Int) : bitwiseOr n 0 = toInt32 n := by
  unfold bitwiseOr toInt32
  norm_num [toUint32]

theorem toInt32_eq_self_iff (n : Int) :
    toInt32 n = n ↔ -2147483648 ≤ n ∧ n < 2147483648 := by
  unfold toInt32 toInt32u toUint32
  have h1 : 0 ≤ n % 4294967296 := Int.emod_nonneg n (by norm_num)
  have h2 : n % 4294967296 < 4294967296 := Int.emod_lt_of_pos n (by norm_num)
  have h3 : ((n % 4294967296).toNat : Int) = n % 4294967296 := Int.toNat_of_nonneg h1
  have h4 : (n % 4294967296).toNat < 2147483648 ↔ n % 4294967296 < 2147483648 := by omega
  split
  case isTrue h =>
    rw [h3]
    omega
  case isFalse h =>
    rw [h3]
    omega

theorem toInt32_int32 (n : Int) (h1 : -2147483648 ≤ n) (h2 : n < 2147483648) :
    toInt32 n = n := (toInt32_eq_self_iff n).mpr ⟨h1, h2⟩

/-! ### Helper lemmas: reader stepping -/

theorem drop_add_of_drop_eq {l : List Nat} {p : Nat} {a b : List Nat}
    (h : l.drop p = a ++ b) : l.drop (p + a.length) = b := by
  rw [← List.drop_drop, h, List.drop_left]

theorem read_one {r : BufferReader} {b : Nat} {t : List Nat}
    (h : r.buf.drop r.pos = b :: t) :
    r.read (some 1) = .ok ([b], ⟨r.buf, r.pos + 1⟩) := by
  have hlt : r.pos < r.buf.length := by
    by_contra hc
    rw [List.drop_eq_nil_iff.mpr (by omega)] at h
    exact List.noConfusion h
  unfold BufferReader.read
  rw [if_neg (by omega)]
  simp only [h]
  norm_num

theorem read_chunk (r : BufferReader) {s t : List Nat}
    (h : r.buf.drop r.pos = s ++ t) (hne : s ++ t ≠ []) :
    r.read (some (s.length : Int)) = .ok (s, ⟨r.buf, r.pos + s.length⟩) := by
  have hlt : r.pos < r.buf.length := by
    by_contra hc
    rw [List.drop_eq_nil_iff.mpr (by omega)] at h
    exact hne h.symm
  have hnn : ¬ ((s.length : Int) < 0) := not_lt.mpr (Int.natCast_nonneg _)
  unfold BufferReader.read
  simp only [not_le.mpr hlt, if_false, hnn, h, Int.toNat_ofNat, List.take_left]

/-! ### Helper lemmas: VQL encoding -/

theorem encodeVQLAux_congr :
    ∀ f1 f2 v : Nat, v ≤ f1 → v ≤ f2 → encodeVQLAux f1 v = encodeVQLAux f2 v := by
  intro f1
  induction f1 with
  | zero =>
    intro f2 v h1 _
    interval_cases v
    cases f2 <;> simp [encodeVQLAux]
  | succ f ih =>
    intro f2 v h1 h2
    cases f2 with
    | zero =>
      interval_cases v
      simp [encodeVQLAux]
    | succ g =>
      by_cases hv : v < 128
      · simp [encodeVQLAux, hv]
      · have hpos : 0 < v := by omega
        have hd : v / 128 < v := Nat.div_lt_self hpos (by norm_num)
        simp only [encodeVQLAux, if_neg hv]
        rw [ih g (v / 128) (by omega) (by omega)]

theorem encodeVQL_eq (v : Nat) :
    encodeVQL v = if v < 128 then [v] else (v % 128 + 128) :: encodeVQL (v / 128) := by
  by_cases hv : v < 128
  · cases v <;> simp [encodeVQL, encodeVQLAux, hv] at *
  · have hpos : 0 < v := by omega
    have hd : v / 128 < v := Nat.div_lt_self hpos (by norm_num)
    unfold encodeVQL
    have hv1 : v = (v - 1) + 1 := by omega
    rw [hv1]
    simp only [encodeVQLAux, if_neg (by omega : ¬ (v - 1) + 1 < 128)]
    rw [← hv1, encodeVQLAux_congr (v - 1) (v / 128) (v / 128) (by omega) (le_refl _)]

theorem encodeVQL_ne_nil (v : Nat) : encodeVQL v ≠ [] := by
  rw [encodeVQL_eq]
  split <;> simp

theorem vqlScratch_eq (v : Int) : vqlScratch v = encodeVQL (toUint32 v) := by
  unfold vqlScratch
  split
  case isTrue h => subst h; norm_num [toUint32, encodeVQL, encodeVQLAux]
  case isFalse h => rfl

theorem vqlScratch_natCast (n : Nat) (h : n < 4294967296) :
    vqlScratch (n : Int) = encodeVQL n := by
  rw [vqlScratch_eq, toUint32_ofNat n h]

/-! ### Helper lemmas: VQL decoding -/

theorem readIntVQLAux_encode :
    ∀ (u k value : Nat) (r : BufferReader) (rest : List Nat),
      r.buf.drop r.pos = encodeVQL u ++ rest →
      value < 2 ^ (7 * k) →
      u <<< (7 * k) < 4294967296 →
      7 * k < 32 →
      readIntVQLAux (r.buf.length - r.pos) r (7 * k) value
        = .ok (toInt32u (value ||| (u <<< (7 * k))), ⟨r.buf, r.pos + (encodeVQL u).length⟩) := by
  intro u
  induction u using Nat.strongRecOn with
  | ind u ih =>
    intro k value r rest h hval h32 hk32
    by_cases hu : u < 128
    · -- final byte: continuation bit clear
      rw [encodeVQL_eq, if_pos hu] at h ⊢
      simp only [List.cons_append, List.nil_append] at h
      have hlt : r.pos < r.buf.length := by
        by_contra hc
        rw [List.drop_eq_nil_iff.mpr (by omega)] at h
        exact List.noConfusion h
      have hfuel : r.buf.length - r.pos = (r.buf.length - r.pos - 1) + 1 := by omega
      rw [hfuel]
      simp only [readIntVQLAux, read_one h, List.headD_cons]
      have hb : u &&& 128 = 0 := by
        have h1 := Nat.and_two_pow u 7
        have h2 : u.testBit 7 = false := Nat.testBit_lt_two_pow (by norm_num; omega)
        rw [h2] at h1
        norm_num at h1
        exact h1
      have h127 : u &&& 127 = u := by
        have h1 := Nat.and_pow_two_sub_one_eq_mod u 7
        norm_num at h1
        rw [h1]
        exact Nat.mod_eq_of_lt hu
      have hmod32 : 7 * k % 32 = 7 * k := Nat.mod_eq_of_lt hk32
      have hmod232 : (u <<< (7 * k)) % 4294967296 = u <<< (7 * k) :=
        Nat.mod_eq_of_lt h32
      simp only [hb, if_pos, h127, hmod32, hmod232, List.length_cons, List.length_nil]
    · -- continuation byte
      rw [encodeVQL_eq, if_neg hu] at h ⊢
      simp only [List.cons_append] at h
      have hlt : r.pos < r.buf.length := by
        by_contra hc
        rw [List.drop_eq_nil_iff.mpr (by omega)] at h
        exact List.noConfusion h
      have hfuel : r.buf.length - r.pos = (r.buf.length - r.pos - 1) + 1 := by omega
      rw [hfuel]
      simp only [readIntVQLAux, read_one h, List.headD_cons]
      have hb : ¬ ((u % 128 + 128) &&& 128 = 0) := by
        have h1 := Nat.and_two_pow (u % 128 + 128) 7
        have h2 : (u % 128 + 128).testBit 7 = true := by
          have h3 : (u % 128 + 128) / 2 ^ 7 = 1 := by
            norm_num
          rw [Nat.testBit_to_div_mod, h3]
          rfl
        rw [h2] at h1
        norm_num at h1
        omega
      have h127 : (u % 128 + 128) &&& 127 = u % 128 := by
        have h1 := Nat.and_pow_two_sub_one_eq_mod (u % 128 + 128) 7
        norm_num at h1
        rw [h1]
      have hmod32 : 7 * k % 32 = 7 * k := Nat.mod_eq_of_lt hk32
      have hsh : (u % 128) <<< (7 * k) ≤ u <<< (7 * k) := by
        simp only [Nat.shiftLeft_eq]
        exact Nat.mul_le_mul_right _ (Nat.mod_le u 128)
      have hmod232 : ((u % 128) <<< (7 * k)) % 4294967296 = (u % 128) <<< (7 * k) :=
        Nat.mod_eq_of_lt (by omega)
      simp only [hb, if_neg, h127, hmod32, hmod232]
      have hdiv : u / 128 < u := Nat.div_lt_self (by omega) (by norm_num)
      have hb2 : (u % 128) <<< (7 * k) < 2 ^ (7 * k + 7) := by
        rw [Nat.shiftLeft_eq, Nat.pow_add]
        have : u % 128 < 128 := Nat.mod_lt u (by norm_num)
        calc u % 128 * 2 ^ (7 * k) < 128 * 2 ^ (7 * k) :=
              (Nat.mul_lt_mul_right (Nat.two_pow_pos _)).mpr this
          _ = 2 ^ (7 * k) * 2 ^ 7 := by ring
      have hk32' : 7 * (k + 1) < 32 := by
        have hlow : 2 ^ (7 * k + 7) ≤ u <<< (7 * k) := by
          rw [Nat.shiftLeft_eq, Nat.pow_add]
          calc 2 ^ (7 * k) * 2 ^ 7 = 2 ^ 7 * 2 ^ (7 * k) := by ring
            _ ≤ u * 2 ^ (7 * k) :=
              Nat.mul_le_mul_right _ (by norm_num; omega)
        have : (2 : Nat) ^ (7 * k + 7) < 2 ^ 32 := by
          calc (2:Nat) ^ (7 * k + 7) ≤ u <<< (7 * k) := hlow
            _ < 4294967296 := h32
            _ = 2 ^ 32 := by norm_num
        have := (Nat.pow_lt_pow_iff_right (by norm_num : 1 < 2)).mp this
        omega
      have h32' : (u / 128) <<< (7 * (k + 1)) < 4294967296 := by
        rw [Nat.shiftLeft_eq]
        have heq : (2:Nat) ^ (7 * (k + 1)) = 2 ^ (7 * k) * 128 := by
          rw [show 7 * (k + 1) = 7 * k + 7 by ring, Nat.pow_add]
        rw [heq]
        calc u / 128 * (2 ^ (7 * k) * 128) = (u / 128 * 128) * 2 ^ (7 * k) := by ring
          _ ≤ u * 2 ^ (7 * k) := Nat.mul_le_mul_right _ (Nat.div_mul_le_self u 128)
          _ = u <<< (7 * k) := (Nat.shiftLeft_eq u (7 * k)).symm
          _ < 4294967296 := h32
      have hval' : value ||| (u % 128) <<< (7 * k) < 2 ^ (7 * (k + 1)) := by
        apply Nat.or_lt_two_pow
        · calc value < 2 ^ (7 * k) := hval
            _ ≤ 2 ^ (7 * (k + 1)) := Nat.pow_le_pow_right (by norm_num) (by omega)
        · calc (u % 128) <<< (7 * k) < 2 ^ (7 * k + 7) := hb2
            _ = 2 ^ (7 * (k + 1)) := by ring_nf
      have hdrop : (⟨r.buf, r.pos + 1⟩ : BufferReader).buf.drop
          (⟨r.buf, r.pos + 1⟩ : BufferReader).pos = encodeVQL (u / 128) ++ rest := by
        simp only
        rw [← List.tail_drop, h, List.tail_cons]
      have hrec := ih (u / 128) hdiv (k + 1) (value ||| (u % 128) <<< (7 * k))
        ⟨r.buf, r.pos + 1⟩ rest hdrop hval' h32' hk32'
      simp only at hrec
      have hfuel2 : r.buf.length - r.pos - 1 = r.buf.length - (r.pos + 1) := by omega
      have hn7 : 7 * k + 7 = 7 * (k + 1) := by ring
      rw [hfuel2, hn7, hrec]
      have hcombine : value ||| (u % 128) <<< (7 * k) ||| (u / 128) <<< (7 * (k + 1))
          = value ||| u <<< (7 * k) := by
        rw [Nat.or_assoc]
        congr 1
        simp only [Nat.shiftLeft_eq]
        have heq : (2:Nat) ^ (7 * (k + 1)) = 2 ^ (7 * k + 7) := by ring_nf
        rw [heq]
        have hkey := Nat.mul_add_lt_is_or hb2 (u / 128)
        rw [Nat.shiftLeft_eq] at hkey
        calc u % 128 * 2 ^ (7 * k) ||| u / 128 * 2 ^ (7 * k + 7)
            = 2 ^ (7 * k + 7) * (u / 128) ||| u % 128 * 2 ^ (7 * k) := by
              rw [Nat.or_comm, Nat.mul_comm]
          _ = 2 ^ (7 * k + 7) * (u / 128) + u % 128 * 2 ^ (7 * k) := (hkey).symm
          _ = (128 * (u / 128) + u % 128) * 2 ^ (7 * k) := by
              rw [Nat.pow_add]
              ring
          _ = u * 2 ^ (7 * k) := by rw [Nat.div_add_mod u 128]
      rw [hcombine]
      simp only [List.length_cons]
      have hpos : r.pos + 1 + (encodeVQL (u / 128)).length
          = r.pos + ((encodeVQL (u / 128)).length + 1) := by omega
      rw [hpos]
      simp

theorem readIntVQL_encode (u : Nat) (hu : u < 4294967296) (r : BufferReader)
    (rest : List Nat) (h : r.buf.drop r.pos = encodeVQL u ++ rest) :
    readIntVQL r = .ok (toInt32u u, ⟨r.buf, r.pos + (encodeVQL u).length⟩) := by
  have hx := readIntVQLAux_encode u 0 0 r rest h (by norm_num)
    (by simpa using hu) (by norm_num)
  unfold readIntVQL
  simpa using hx

/-! ### Helper lemmas: round trip of the serialization protocol -/

theorem serialize_ne_nil : ∀ v : SValue, serialize v ≠ []
  | .vnull => by simp [serialize]
  | .vstr _ => by simp [serialize]
  | .vbuf _ => by simp [serialize]
  | .vint _ => by
    simp only [serialize]
    split <;> simp
  | .varr _ => by simp [serialize]
  | .vmarshall _ => by simp [serialize]
  | .vobj _ => by simp [serialize]

theorem depthS_pos : ∀ v : SValue, 1 ≤ depthS v
  | .vnull => by simp [depthS]
  | .vstr _ => by simp [depthS]
  | .vbuf _ => by simp [depthS]
  | .vint _ => by simp [depthS]
  | .varr _ => by simp [depthS]
  | .vmarshall _ => by simp [depthS]
  | .vobj _ => by simp [depthS]

theorem depthS_le_of_mem {v : SValue} : ∀ {vs : List SValue}, v ∈ vs → depthS v ≤ depthListS vs
  | [], h => absurd h (List.not_mem_nil v)
  | w :: ws, h => by
    rcases List.mem_cons.mp h with h1 | h2
    · subst h1
      simp [depthListS]
    · simp only [depthListS]
      exact le_max_of_le_right (depthS_le_of_mem h2)

theorem decode_len_body (r : BufferReader) {body rest : List Nat}
    (hlen : body.length < 2147483648)
    (h : r.buf.drop r.pos = vqlScratch (body.length : Int) ++ (body ++ rest))
    (hne : body ++ rest ≠ []) :
    readIntVQL r = .ok ((body.length : Int),
        ⟨r.buf, r.pos + (vqlScratch (body.length : Int)).length⟩) ∧
      BufferReader.read ⟨r.buf, r.pos + (vqlScratch (body.length : Int)).length⟩
          (some (body.length : Int))
        = .ok (body, ⟨r.buf,
            r.pos + (vqlScratch (body.length : Int)).length + body.length⟩) := by
  have hlt32 : body.length < 4294967296 := by omega
  rw [vqlScratch_natCast body.length hlt32] at h ⊢
  constructor
  · have := readIntVQL_encode body.length hlt32 r (body ++ rest) h
    rwa [toInt32u_ofNat body.length hlen] at this
  · have hd : r.buf.drop (r.pos + (encodeVQL body.length).length) = body ++ rest :=
      drop_add_of_drop_eq h
    exact read_chunk ⟨r.buf, r.pos + (encodeVQL body.length).length⟩ hd hne

theorem ebind_ok {α β : Type} (a : α) (f : α → Except PErr β) :
    (Except.ok a >>= f) = f a := rfl

theorem ebind_err {α β : Type} (e : PErr) (f : α → Except PErr β) :
    ((Except.error e : Except PErr α) >>= f) = Except.error e := rfl

theorem deserializeLoop_serialize (fuel : Nat)
    (ih : ∀ (v : SValue) (r : BufferReader) (rest : List Nat),
      depthS v ≤ fuel → supportedB v = true → (goodTailB v = true ∨ rest ≠ []) →
      r.buf.drop r.pos = serialize v ++ rest →
      deserialize fuel r = .ok (v, ⟨r.buf, r.pos + (serialize v).length⟩)) :
    ∀ (vs : List SValue) (r : BufferReader) (rest : List Nat),
      (∀ v ∈ vs, depthS v ≤ fuel) → supportedListB vs = true →
      (goodTailListB vs = true ∨ rest ≠ []) →
      r.buf.drop r.pos = serializeList vs ++ rest →
      deserializeLoop (deserialize fuel) vs.length r
        = .ok (vs, ⟨r.buf, r.pos + (serializeList vs).length⟩) := by
  intro vs
  induction vs with
  | nil =>
    intro r rest _ _ _ _
    simp [deserializeLoop, serializeList]
  | cons v vs' ihl =>
    intro r rest hdep hsup hgood h
    simp only [serializeList, List.append_assoc] at h
    have hsup' := hsup
    simp only [supportedListB, Bool.and_eq_true] at hsup'
    have hgoodv : goodTailB v = true ∨ serializeList vs' ++ rest ≠ [] := by
      cases vs' with
      | nil =>
        simp only [serializeList, List.nil_append]
        rcases hgood with hg | hr
        · left
          simpa [goodTailListB] using hg
        · right
          exact hr
      | cons w ws =>
        right
        intro hc
        rcases List.append_eq_nil.mp hc with ⟨hs0, _⟩
        simp only [serializeList] at hs0
        rcases List.append_eq_nil.mp hs0 with ⟨hw, _⟩
        exact serialize_ne_nil w hw
    have hv := ih v r (serializeList vs' ++ rest) (hdep v (by simp)) hsup'.1 hgoodv h
    have hdrop' : (⟨r.buf, r.pos + (serialize v).length⟩ : BufferReader).buf.drop
        (⟨r.buf, r.pos + (serialize v).length⟩ : BufferReader).pos
        = serializeList vs' ++ rest := by
      simp only
      exact drop_add_of_drop_eq h
    have hgood' : goodTailListB vs' = true ∨ rest ≠ [] := by
      cases vs' with
      | nil => left; rfl
      | cons w ws =>
        rcases hgood with hg | hr
        · left
          simpa [goodTailListB] using hg
        · right
          exact hr
    have hrest := ihl ⟨r.buf, r.pos + (serialize v).length⟩ rest
      (fun x hx => hdep x (by simp [hx])) hsup'.2 hgood' hdrop'
    simp only [List.length_cons, deserializeLoop, hv, ebind_ok, hrest]
    simp only [serializeList, List.length_append]
    have hpos : r.pos + (serialize v).length + (serializeList vs').length
        = r.pos + ((serialize v).length + (serializeList vs').length) := by omega
    rw [hpos]

theorem deserialize_serialize :
    ∀ (fuel : Nat) (v : SValue) (r : BufferReader) (rest : List Nat),
      depthS v ≤ fuel →
      supportedB v = true →
      (goodTailB v = true ∨ rest ≠ []) →
      r.buf.drop r.pos = serialize v ++ rest →
      deserialize fuel r = .ok (v, ⟨r.buf, r.pos + (serialize v).length⟩) := by
  intro fuel
  induction fuel with
  | zero =>
    intro v r rest hd _ _ _
    have := depthS_pos v
    omega
  | succ fuel ih =>
    intro v r rest hd hsup hgood h
    cases v with
    | vnull =>
      simp only [serialize, List.cons_append, List.nil_append] at h
      simp only [deserialize, read_one h, ebind_ok, List.headD_cons, serialize,
        List.length_cons, List.length_nil]
    | vstr s =>
      simp only [supportedB, decide_eq_true_eq] at hsup
      simp only [serialize, List.cons_append, List.append_assoc] at h
      have h' : r.buf.drop (r.pos + 1) = vqlScratch (s.length : Int) ++ (s ++ rest) := by
        rw [← List.tail_drop, h, List.tail_cons]
      have hne : s ++ rest ≠ [] := by
        intro hc
        rcases List.append_eq_nil.mp hc with ⟨hs0, hr0⟩
        rcases hgood with hg | hr
        · rw [hs0] at hg
          simp [goodTailB] at hg
        · exact hr hr0
      obtain ⟨h1, h2⟩ := decode_len_body ⟨r.buf, r.pos + 1⟩ hsup h' hne
      simp only at h1 h2
      simp only [deserialize, read_one h, ebind_ok, List.headD_cons, h1, h2]
      simp only [serialize, List.length_cons, List.length_append]
      have hpos : r.pos + 1 + (vqlScratch (s.length : Int)).length + s.length
          = r.pos + ((vqlScratch (s.length : Int)).length + s.length + 1) := by omega
      rw [hpos]
    | vbuf b =>
      simp only [supportedB, decide_eq_true_eq] at hsup
      simp only [serialize, List.cons_append, List.append_assoc] at h
      have h' : r.buf.drop (r.pos + 1) = vqlScratch (b.length : Int) ++ (b ++ rest) := by
        rw [← List.tail_drop, h, List.tail_cons]
      have hne : b ++ rest ≠ [] := by
        intro hc
        rcases List.append_eq_nil.mp hc with ⟨hs0, hr0⟩
        rcases hgood with hg | hr
        · rw [hs0] at hg
          simp [goodTailB] at hg
        · exact hr hr0
      obtain ⟨h1, h2⟩ := decode_len_body ⟨r.buf, r.pos + 1⟩ hsup h' hne
      simp only at h1 h2
      simp only [deserialize, read_one h, ebind_ok, List.headD_cons, h1, h2]
      simp only [serialize, List.length_cons, List.length_append]
      have hpos : r.pos + 1 + (vqlScratch (b.length : Int)).length + b.length
          = r.pos + ((vqlScratch (b.length : Int)).length + b.length + 1) := by omega
      rw [hpos]
    | vmarshall b =>
      simp only [supportedB, decide_eq_true_eq] at hsup
      simp only [serialize, List.cons_append, List.append_assoc] at h
      have h' : r.buf.drop (r.pos + 1) = vqlScratch (b.length : Int) ++ (b ++ rest) := by
        rw [← List.tail_drop, h, List.tail_cons]
      have hne : b ++ rest ≠ [] := by
        intro hc
        rcases List.append_eq_nil.mp hc with ⟨hs0, hr0⟩
        rcases hgood with hg | hr
        · rw [hs0] at hg
          simp [goodTailB] at hg
        · exact hr hr0
      obtain ⟨h1, h2⟩ := decode_len_body ⟨r.buf, r.pos + 1⟩ hsup h' hne
      simp only at h1 h2
      simp only [deserialize, read_one h, ebind_ok, List.headD_cons, h1, h2]
      simp only [serialize, List.length_cons, List.length_append]
      have hpos : r.pos + 1 + (vqlScratch (b.length : Int)).length + b.length
          = r.pos + ((vqlScratch (b.length : Int)).length + b.length + 1) := by omega
      rw [hpos]
    | vobj b =>
      simp only [supportedB, decide_eq_true_eq] at hsup
      simp only [serialize, List.cons_append, List.append_assoc] at h
      have h' : r.buf.drop (r.pos + 1) = vqlScratch (b.length : Int) ++ (b ++ rest) := by
        rw [← List.tail_drop, h, List.tail_cons]
      have hne : b ++ rest ≠ [] := by
        intro hc
        rcases List.append_eq_nil.mp hc with ⟨hs0, hr0⟩
        rcases hgood with hg | hr
        · rw [hs0] at hg
          simp [goodTailB] at hg
        · exact hr hr0
      obtain ⟨h1, h2⟩ := decode_len_body ⟨r.buf, r.pos + 1⟩ hsup h' hne
      simp only at h1 h2
      simp only [deserialize, read_one h, ebind_ok, List.headD_cons, h1, h2]
      simp only [serialize, List.length_cons, List.length_append]
      have hpos : r.pos + 1 + (vqlScratch (b.length : Int)).length + b.length
          = r.pos + ((vqlScratch (b.length : Int)).length + b.length + 1) := by omega
      rw [hpos]
    | vint n =>
      simp only [supportedB, decide_eq_true_eq] at hsup
      simp only [serialize, hsup, if_pos, List.cons_append] at h
      rw [vqlScratch_eq] at h
      have h' : r.buf.drop (r.pos + 1) = encodeVQL (toUint32 n) ++ rest := by
        rw [← List.tail_drop, h, List.tail_cons]
      have h1 := readIntVQL_encode (toUint32 n) (toUint32_lt n)
        ⟨r.buf, r.pos + 1⟩ rest h'
      simp only at h1
      have hval : toInt32u (toUint32 n) = n := by
        have hx : toInt32 n = n := by
          rw [← bitwiseOr_zero]
          exact hsup
        exact hx
      rw [hval] at h1
      simp only [deserialize, read_one h, ebind_ok, List.headD_cons, h1]
      simp only [serialize, hsup, if_pos, List.length_cons, vqlScratch_eq]
      have hpos : r.pos + 1 + (encodeVQL (toUint32 n)).length
          = r.pos + ((encodeVQL (toUint32 n)).length + 1) := by omega
      rw [hpos]
    | varr xs =>
      simp only [supportedB, Bool.and_eq_true, decide_eq_true_eq] at hsup
      simp only [serialize, List.cons_append, List.append_assoc] at h
      have h' : r.buf.drop (r.pos + 1)
          = vqlScratch (xs.length : Int) ++ (serializeList xs ++ rest) := by
        rw [← List.tail_drop, h, List.tail_cons]
      have hlt32 : xs.length < 4294967296 := by omega
      rw [vqlScratch_natCast xs.length hlt32] at h'
      have h1 := readIntVQL_encode xs.length hlt32 ⟨r.buf, r.pos + 1⟩
        (serializeList xs ++ rest) h'
      simp only at h1
      rw [toInt32u_ofNat xs.length hsup.1] at h1
      have hdrop2 : (⟨r.buf, r.pos + 1 + (encodeVQL xs.length).length⟩ : BufferReader).buf.drop
          (⟨r.buf, r.pos + 1 + (encodeVQL xs.length).length⟩ : BufferReader).pos
          = serializeList xs ++ rest := by
        simp only
        exact drop_add_of_drop_eq h'
      have hgood2 : goodTailListB xs = true ∨ rest ≠ [] := by
        rcases hgood with hg | hr
        · left
          simpa [goodTailB] using hg
        · right
          exact hr
      have hdep2 : ∀ w ∈ xs, depthS w ≤ fuel := by
        intro w hw
        have h1 := depthS_le_of_mem hw
        simp only [depthS] at hd
        omega
      have hloop := deserializeLoop_serialize fuel ih xs
        ⟨r.buf, r.pos + 1 + (encodeVQL xs.length).length⟩ rest hdep2 hsup.2 hgood2 hdrop2
      simp only at hloop
      simp only [deserialize, read_one h, ebind_ok, List.headD_cons, h1]
      have hcond : ¬ ((xs.length : Int) < 0) := not_lt.mpr (Int.natCast_nonneg _)
      simp only [hcond, if_false, Int.toNat_ofNat, hloop, ebind_ok]
      simp only [serialize, List.length_cons, List.length_append, vqlScratch_natCast xs.length hlt32]
      have hpos : r.pos + 1 + (encodeVQL xs.length).length + (serializeList xs).length
          = r.pos + ((encodeVQL xs.length).length + (serializeList xs).length + 1) := by omega
      rw [hpos]

theorem readIntVQLAux_allCont :
    ∀ (l : List Nat) (r : BufferReader) (n value : Nat),
      r.buf.drop r.pos = l → (∀ b ∈ l, b &&& 128 ≠ 0) →
      readIntVQLAux (r.buf.length - r.pos) r n value = .error .endOfStream := by
  intro l
  induction l with
  | nil =>
    intro r n value h _
    have : r.buf.length ≤ r.pos := List.drop_eq_nil_iff.mp h
    have h0 : r.buf.length - r.pos = 0 := by omega
    rw [h0]
    rfl
  | cons b t ihl =>
    intro r n value h hcont
    have hlt : r.pos < r.buf.length := by
      by_contra hc
      rw [List.drop_eq_nil_iff.mpr (by omega)] at h
      exact List.noConfusion h
    have hfuel : r.buf.length - r.pos = (r.buf.length - r.pos - 1) + 1 := by omega
    rw [hfuel]
    simp only [readIntVQLAux, read_one h, List.headD_cons]
    have hb : ¬ (b &&& 128 = 0) := hcont b (by simp)
    have hd : r.buf.drop (r.pos + 1) = t := by
      rw [← List.tail_drop, h, List.tail_cons]
    have hx := ihl ⟨r.buf, r.pos + 1⟩ (n + 7)
      (value ||| ((b &&& 127) <<< (n % 32)) % 4294967296) hd
      (fun x hx => hcont x (by simp [hx]))
    simp only at hx
    have hfuel2 : r.buf.length - r.pos - 1 = r.buf.length - (r.pos + 1) := by omega
    simp only [hb, if_neg, if_false, hfuel2, hx]

theorem writeMany_buffers (chunks : List (List Nat)) :
    ∀ w : BufferWriter, (w.writeMany chunks).buffers = w.buffers ++ chunks := by
  induction chunks with
  | nil => intro w; simp [BufferWriter.writeMany]
  | cons c cs ihc =>
    intro w
    simp only [BufferWriter.writeMany, List.foldl_cons] at ihc ⊢
    rw [ihc (w.write c)]
    simp [BufferWriter.write]

/-! ### Claim theorems -/

/-- C1 (amended): for every supported value V, deserializing the bytes
produced by serializing V — followed by any trailing bytes — yields V
back and consumes exactly the bytes serialization produced, PROVIDED
the depth-first-last length-prefixed body of V is nonempty or trailing
bytes follow.  (As stated, the claim fails for a supported value such
as the empty string in final position: its zero-length body read occurs
at end-of-buffer and `BufferReader.read` then raises `EndOfStream` —
see the counterexample.) -/
theorem c1_roundtrip_amended (v : SValue) (fuel : Nat) (rest : List Nat)
    (hsup : supportedB v = true)
    (hgood : goodTailB v = true ∨ rest ≠ [])
    (hfuel : depthS v ≤ fuel) :
    deserialize fuel ⟨serialize v ++ rest, 0⟩
      = .ok (v, ⟨serialize v ++ rest, (serialize v).length⟩) := by
  have h := deserialize_serialize fuel v ⟨serialize v ++ rest, 0⟩ rest hfuel hsup hgood (by simp)
  simpa using h

/-- C1 witness: a concrete nested value covering every supported shape
round-trips with exact consumption. -/
theorem c1_roundtrip_amended_witness :
    deserialize 2
        ⟨serialize (.varr [.vnull, .vint 300, .vint (-5), .vstr [97, 98], .vbuf [7],
          .vmarshall [123, 125], .vobj [52]]) ++ [], 0⟩
      = .ok (.varr [.vnull, .vint 300, .vint (-5), .vstr [97, 98], .vbuf [7],
          .vmarshall [123, 125], .vobj [52]],
        ⟨serialize (.varr [.vnull, .vint 300, .vint (-5), .vstr [97, 98], .vbuf [7],
          .vmarshall [123, 125], .vobj [52]]) ++ [],
         (serialize (.varr [.vnull, .vint 300, .vint (-5), .vstr [97, 98], .vbuf [7],
          .vmarshall [123, 125], .vobj [52]])).length⟩) :=
  c1_roundtrip_amended _ 2 [] (by decide) (Or.inl (by decide)) (by decide)

/-- C1 counterexample: the empty string is a supported value shape, yet
deserializing exactly the bytes its serialization produced raises
`EndOfStream` (the zero-length body read happens at end-of-buffer), so
the round-trip claim fails as stated. -/
theorem c1_counterexample :
    supportedB (.vstr []) = true ∧
    serialize (.vstr []) = [1, 0] ∧
    deserialize 10 ⟨serialize (.vstr []), 0⟩ = .error .endOfStream :=
  ⟨rfl, rfl, rfl⟩

/-- C2 (amended): `serialize` tags an integral number n as
`UnsignedInt` (tag 2) iff n lies in the signed 32-bit range
[-2^31, 2^31) — the `bitwise.or(n, 0) === n` test holds for negative
integers too, so negative in-range integers are tagged `UnsignedInt`,
not JSON; every integral number outside that range falls through to the
generic-object JSON encoding (tag 3). -/
theorem c2_uint_tag_amended (n : Int) :
    ((serialize (.vint n)).headD 99 = 2 ↔ -2147483648 ≤ n ∧ n < 2147483648) ∧
    (¬ (-2147483648 ≤ n ∧ n < 2147483648) → (serialize (.vint n)).headD 99 = 3) := by
  have hiff : bitwiseOr n 0 = n ↔ (-2147483648 ≤ n ∧ n < 2147483648) := by
    rw [bitwiseOr_zero]
    exact toInt32_eq_self_iff n
  constructor
  · constructor
    · intro h
      by_contra hc
      have hx : ¬ bitwiseOr n 0 = n := fun hy => hc (hiff.mp hy)
      simp [serialize, hx] at h
    · intro hr
      have hx := hiff.mpr hr
      simp [serialize, hx]
  · intro hc
    have hx : ¬ bitwiseOr n 0 = n := fun hy => hc (hiff.mp hy)
    simp [serialize, hx]

/-- C2 witness: -5 is tagged `UnsignedInt`; 2^32 falls through to the
JSON tag. -/
theorem c2_uint_tag_amended_witness :
    (serialize (.vint (-5))).headD 99 = 2 ∧
    (serialize (.vint 4294967296)).headD 99 = 3 :=
  ⟨(c2_uint_tag_amended (-5)).1.mpr (by norm_num),
   (c2_uint_tag_amended 4294967296).2 (by norm_num)⟩

/-- C2 counterexample: the negative number -1 satisfies the bitwise
identity `(-1 | 0) === -1`, so `serialize` tags it `UnsignedInt`
(tag 2, varint of its unsigned 32-bit representation) — refuting the
claim that exactly the non-negative 32-bit integers get tag 2 and every
negative number falls through to JSON. -/
theorem c2_counterexample :
    serialize (.vint (-1)) = [2, 255, 255, 255, 255, 15] ∧ ¬ (0 ≤ (-1 : Int)) :=
  ⟨rfl, by norm_num⟩

/-- C4: the boundary values 0, 127, 128, 16384 and 2^31-1 encode and
decode losslessly through the variable-length integer encoder (writing
through a fresh writer, reading through a fresh reader); zero encodes
as the single byte 0x00; and decoding a truncated varint — every
available byte carries the continuation bit — raises `EndOfStream`. -/
theorem c4_varint_boundary :
    (writeInt32VQL ⟨[]⟩ 0).drain.1 = [0] ∧
    readIntVQL ⟨(writeInt32VQL ⟨[]⟩ 0).drain.1, 0⟩ = .ok (0, ⟨[0], 1⟩) ∧
    readIntVQL ⟨(writeInt32VQL ⟨[]⟩ 127).drain.1, 0⟩ = .ok (127, ⟨[127], 1⟩) ∧
    readIntVQL ⟨(writeInt32VQL ⟨[]⟩ 128).drain.1, 0⟩ = .ok (128, ⟨[128, 1], 2⟩) ∧
    readIntVQL ⟨(writeInt32VQL ⟨[]⟩ 16384).drain.1, 0⟩
      = .ok (16384, ⟨[128, 128, 1], 3⟩) ∧
    readIntVQL ⟨(writeInt32VQL ⟨[]⟩ 2147483647).drain.1, 0⟩
      = .ok (2147483647, ⟨[255, 255, 255, 255, 7], 5⟩) ∧
    (∀ l : List Nat, (∀ b ∈ l, b &&& 128 ≠ 0) →
      readIntVQL ⟨l, 0⟩ = .error .endOfStream) := by
  refine ⟨rfl, rfl, rfl, rfl, rfl, rfl, ?_⟩
  intro l hcont
  have hx := readIntVQLAux_allCont l ⟨l, 0⟩ 0 0 (by simp) hcont
  simpa [readIntVQL] using hx

/-- C4 witness: a one-byte varint whose single byte has the
continuation bit set raises `EndOfStream`. -/
theorem c4_varint_boundary_witness :
    readIntVQL ⟨[131], 0⟩ = .error .endOfStream :=
  c4_varint_boundary.2.2.2.2.2.2 [131] (by decide)

/-- C5 (amended): a read raises `EndOfStream` exactly when the cursor
has already consumed all backing bytes; a read that merely requests
more bytes than remain does NOT fail — it returns just the remaining
bytes (the chunk is clamped, see the counterexample); draining a writer
returns exactly the concatenation of the chunks written since the
previous drain and resets the writer to empty, so those bytes are
returned exactly once. -/
theorem c5_reader_writer_amended :
    (∀ (r : BufferReader) (bytes : Option Int),
        BufferReader.read r bytes = .error .endOfStream ↔ r.buf.length ≤ r.pos) ∧
    (∀ (r : BufferReader) (n : Int), r.pos < r.buf.length → 0 ≤ n →
        ∃ chunk, BufferReader.read r (some n) = .ok (chunk, ⟨r.buf, r.pos + chunk.length⟩) ∧
          chunk.length = min n.toNat (r.buf.length - r.pos)) ∧
    (∀ (w : BufferWriter) (chunks : List (List Nat)),
        ((w.drain.2).writeMany chunks).drain.1 = chunks.flatten) ∧
    (∀ w : BufferWriter, w.drain.1 = w.buffer ∧ (w.drain.2).drain.1 = []) := by
  refine ⟨?_, ?_, ?_, ?_⟩
  · intro r bytes
    constructor
    · intro h
      by_contra hc
      push_neg at hc
      revert h
      unfold BufferReader.read
      rw [if_neg (by omega)]
      cases bytes with
      | none => simp
      | some n =>
        by_cases hn : n < 0
        · simp [hn]
        · simp [hn]
    · intro h
      unfold BufferReader.read
      rw [if_pos h]
  · intro r n hlt hn
    refine ⟨(r.buf.drop r.pos).take n.toNat, ?_, ?_⟩
    · unfold BufferReader.read
      rw [if_neg (by omega)]
      simp only [not_lt.mpr hn, if_false]
    · rw [List.length_take, List.length_drop]
  · intro w chunks
    show ((w.drain.2).writeMany chunks).buffers.flatten = chunks.flatten
    rw [writeMany_buffers]
    simp [BufferWriter.drain]
  · intro w
    exact ⟨rfl, rfl⟩

/-- C5 witness: a mid-buffer read of 2 bytes returns those 2 bytes and
advances the cursor by the produced chunk's length. -/
theorem c5_reader_writer_amended_witness :
    ∃ chunk, BufferReader.read ⟨[1, 2, 3], 1⟩ (some 2)
        = .ok (chunk, ⟨[1, 2, 3], 1 + chunk.length⟩) ∧
      chunk.length = min (2 : Int).toNat (([1, 2, 3] : List Nat).length - 1) :=
  c5_reader_writer_amended.2.1 ⟨[1, 2, 3], 1⟩ 2 (by norm_num) (by norm_num)

/-- C5 counterexample: a reader over two bytes asked for five — a read
that goes past the end of the backing bytes — succeeds with the two
remaining bytes instead of failing, refuting "any read that goes past
the end fails". -/
theorem c5_counterexample :
    BufferReader.read ⟨[170, 187], 0⟩ (some 5) = .ok ([170, 187], ⟨[170, 187], 2⟩) := rfl

/-! ### Helper lemmas: emitter -/

theorem mapLookup_mapSet_self {α : Type} (m : List (String × α)) (k : String) (v : α) :
    mapLookup (mapSet m k v) k = some v := by
  induction m with
  | nil => simp [mapSet, mapLookup]
  | cons e rest ihm =>
    obtain ⟨k', v'⟩ := e
    by_cases hk : k' = k
    · simp [mapSet, hk, mapLookup]
    · simp [mapSet, hk, mapLookup, ihm]

theorem dedupMatch_refl (c : CB) : dedupMatch c c = true := by
  cases c <;> simp [dedupMatch]

/-- C6 (amended): `emit` returns true iff the event name has an entry
in the listeners map — an entry that can be an EMPTY list (left behind
by `removeListener` removing the last subscription, since splicing does
not delete the map entry), in which case `emit` still returns true with
zero dispatches; the dispatch list is exactly the current subscription
list in order. -/
theorem c6_emit_amended (s : EventEmitter) (e : String) :
    ((EventEmitter.emit s e).1 = true ↔ (mapLookup s.listeners e).isSome = true) ∧
    (EventEmitter.emit s e).2.2
      = ((mapLookup s.listeners e).getD []).map (fun l => l.callback) := by
  unfold EventEmitter.emit
  cases h : mapLookup s.listeners e <;> simp [h]

/-- C6 witness: an emitter whose map holds an entry for "e" gets
`emit = true`. -/
theorem c6_emit_amended_witness :
    (EventEmitter.emit ⟨0, false, 32, [("e", [])]⟩ "e").1 = true :=
  (c6_emit_amended ⟨0, false, 32, [("e", [])]⟩ "e").1.mpr (by decide)

/-- C6 counterexample: add a listener for "e", remove it again — zero
subscriptions exist, yet `emit "e"` still returns true (the splice left
an empty list in the map), refuting "true iff at least one subscription
existed at the time of the call". -/
theorem c6_counterexample :
    EventEmitter.addListener (EventEmitter.init none) "e" (.bare 0) none false
      = .ok ⟨0, false, 32, [("e", [⟨.bare 0, none, false⟩])]⟩ ∧
    EventEmitter.removeListener ⟨0, false, 32, [("e", [⟨.bare 0, none, false⟩])]⟩ "e" (.bare 0)
      = .ok (⟨0, false, 32, [("e", [])]⟩, true) ∧
    (EventEmitter.emit ⟨0, false, 32, [("e", [])]⟩ "e").1 = true ∧
    (EventEmitter.emit ⟨0, false, 32, [("e", [])]⟩ "e").2.2 = [] :=
  ⟨rfl, rfl, rfl, rfl⟩

/-- C10: after `dispose()` on a live emitter, every mutating operation
(`addListener`, `removeListener`, `removeManyListeners`,
`removeAllListeners`, `setMaxListeners`) throws, while `emit` does not
throw (it is a total dispatch in this model, performing no disposed
check): all subscription lists having been cleared, it returns false
with zero dispatches for every event name. -/
theorem c10_disposed_emitter (s : EventEmitter) (e : String) (cb : CB)
    (ta : Option Nat) (o : Bool) (v : Nat) (h : s.disposed = false) :
    EventEmitter.addListener (EventEmitter.dispose s) e cb ta o
        = .error .thrownUndefined ∧
    EventEmitter.removeListener (EventEmitter.dispose s) e cb
        = .error .thrownUndefined ∧
    EventEmitter.removeManyListeners (EventEmitter.dispose s) e
        = .error .thrownUndefined ∧
    EventEmitter.removeAllListeners (EventEmitter.dispose s)
        = .error .thrownUndefined ∧
    EventEmitter.setMaxListeners (EventEmitter.dispose s) v
        = .error .thrownUndefined ∧
    EventEmitter.emit (EventEmitter.dispose s) e
        = (false, EventEmitter.dispose s, []) := by
  have hd : EventEmitter.dispose s
      = { s with listeners := [], disposed := true, state := -1 } := by
    unfold EventEmitter.dispose
    rw [if_neg (by rw [h]; exact Bool.false_ne_true)]
  rw [hd]
  refine ⟨?_, ?_, ?_, ?_, ?_, ?_⟩ <;>
    simp [EventEmitter.addListener, EventEmitter.removeListener,
      EventEmitter.removeManyListeners, EventEmitter.removeAllListeners,
      EventEmitter.setMaxListeners, EventEmitter.emit, mapLookup]

/-- C10 witness: the fresh emitter, disposed, rejects every mutation
and emits false. -/
theorem c10_disposed_emitter_witness :
    EventEmitter.addListener (EventEmitter.dispose (EventEmitter.init none)) "e" (.bare 0)
        none false = .error .thrownUndefined ∧
    EventEmitter.removeListener (EventEmitter.dispose (EventEmitter.init none)) "e" (.bare 0)
        = .error .thrownUndefined ∧
    EventEmitter.removeManyListeners (EventEmitter.dispose (EventEmitter.init none)) "e"
        = .error .thrownUndefined ∧
    EventEmitter.removeAllListeners (EventEmitter.dispose (EventEmitter.init none))
        = .error .thrownUndefined ∧
    EventEmitter.setMaxListeners (EventEmitter.dispose (EventEmitter.init none)) 5
        = .error .thrownUndefined ∧
    EventEmitter.emit (EventEmitter.dispose (EventEmitter.init none)) "e"
        = (false, EventEmitter.dispose (EventEmitter.init none), []) :=
  c10_disposed_emitter (EventEmitter.init none) "e" (.bare 0) none false 5 rfl

/-- C7 (amended): on a live emitter, a registration the source's
comparison finds already present is a no-op — the comparison dedups
bare-vs-bare by callback identity, mixed bare/wrapper by the wrapper's
underlying callback identity, but wrapper-vs-wrapper by WRAPPER
identity only (a second, distinct wrapper around the same underlying
callback is NOT deduplicated — see the counterexample); after a
successful registration of a not-yet-present callback, re-registering
the same callback value is a no-op and one emit dispatches to it
exactly once; and when the event name already holds at least
`maxListeners` subscriptions, registering a not-already-present
callback throws (a duplicate at the cap still returns as a no-op,
since the duplicate check precedes the cap check). -/
theorem c7_dedup_cap_amended (s : EventEmitter) (e : String) (cb : CB) (ta : Option Nat)
    (o o' : Bool) (hdisp : s.disposed = false)
    (hnodup : ((mapLookup s.listeners e).getD []).any
        (fun item => dedupMatch cb item.callback) = false) :
    (∀ s1, EventEmitter.addListener s e cb ta o = .ok s1 →
        EventEmitter.addListener s1 e cb ta o' = .ok s1 ∧
        ((EventEmitter.emit s1 e).2.2.filter (fun c => c == cb)).length = 1) ∧
    (s.maxListeners ≤ ((mapLookup s.listeners e).getD []).length →
        EventEmitter.addListener s e cb ta o = .error .thrownUndefined) := by
  have hfilter : ∀ prev : List Listener,
      prev.any (fun item => dedupMatch cb item.callback) = false →
      ((prev ++ [(⟨cb, ta, o⟩ : Listener)]).map (fun l => l.callback)).filter
          (fun c => c == cb) = [cb] := by
    intro prev hp
    rw [List.map_append, List.filter_append]
    have h1 : (prev.map (fun l => l.callback)).filter (fun c => c == cb) = [] := by
      rw [List.filter_eq_nil_iff]
      intro a ha
      rcases List.mem_map.mp ha with ⟨l, hl, hleq⟩
      subst hleq
      intro hc
      have heq : l.callback = cb := by simpa using hc
      have hany := List.any_eq_false.mp hp l hl
      rw [heq] at hany
      exact hany (dedupMatch_refl cb)
    rw [h1]
    simp
  cases hm : mapLookup s.listeners e with
  | none =>
    have hprev : mapLookup (mapSet s.listeners e []) e = some [] :=
      mapLookup_mapSet_self s.listeners e []
    constructor
    · intro s1 hok
      unfold EventEmitter.addListener at hok
      rw [if_neg (by simp [hdisp])] at hok
      simp only [hm, Option.isSome_none, Bool.false_eq_true, if_false, hprev,
        Option.getD_some, List.any_nil, List.length_nil] at hok
      by_cases hcap : s.maxListeners ≤ 0
      · rw [if_pos hcap] at hok
        exact absurd hok (by simp)
      · rw [if_neg hcap] at hok
        simp only [List.nil_append] at hok
        have hs1 : s1 = { s with
            listeners := mapSet (mapSet s.listeners e []) e [⟨cb, ta, o⟩] } := by
          injection hok with hx
          exact hx.symm
        subst hs1
        have hlook1 : mapLookup (mapSet (mapSet s.listeners e []) e [⟨cb, ta, o⟩]) e
            = some [⟨cb, ta, o⟩] := mapLookup_mapSet_self _ e _
        constructor
        · unfold EventEmitter.addListener
          rw [if_neg (by simp [hdisp])]
          simp only [hlook1, Option.isSome_some, if_pos, Option.getD_some, List.any_cons,
            List.any_nil, dedupMatch_refl, Bool.or_false]
        · unfold EventEmitter.emit
          simp only [hlook1]
          simpa using hfilter [] rfl
    · intro hcap
      simp only [hm, Option.getD_none, List.length_nil] at hcap
      unfold EventEmitter.addListener
      rw [if_neg (by simp [hdisp])]
      simp only [hm, Option.isSome_none, Bool.false_eq_true, if_false, hprev,
        Option.getD_some, List.any_nil, List.length_nil, if_pos hcap]
  | some prev =>
    have hnd : prev.any (fun item => dedupMatch cb item.callback) = false := by
      simpa [hm] using hnodup
    constructor
    · intro s1 hok
      unfold EventEmitter.addListener at hok
      rw [if_neg (by simp [hdisp])] at hok
      simp only [hm, Option.isSome_some, if_pos, Option.getD_some, hnd,
        Bool.false_eq_true, if_false] at hok
      by_cases hcap : s.maxListeners ≤ prev.length
      · rw [if_pos hcap] at hok
        exact absurd hok (by simp)
      · rw [if_neg hcap] at hok
        have hs1 : s1 = { s with listeners := mapSet s.listeners e (prev ++ [⟨cb, ta, o⟩]) } := by
          injection hok with hx
          exact hx.symm
        subst hs1
        have hlook1 : mapLookup (mapSet s.listeners e (prev ++ [⟨cb, ta, o⟩])) e
            = some (prev ++ [⟨cb, ta, o⟩]) := mapLookup_mapSet_self _ e _
        constructor
        · unfold EventEmitter.addListener
          rw [if_neg (by simp [hdisp])]
          simp only [hlook1, Option.isSome_some, if_pos, Option.getD_some, List.any_append,
            List.any_cons, List.any_nil, dedupMatch_refl, Bool.or_false, hnd, Bool.false_or,
            if_pos]
        · unfold EventEmitter.emit
          simp only [hlook1]
          simpa using hfilter prev hnd
    · intro hcap
      simp only [hm, Option.getD_some] at hcap
      unfold EventEmitter.addListener
      rw [if_neg (by simp [hdisp])]
      simp only [hm, Option.isSome_some, if_pos, Option.getD_some, hnd,
        Bool.false_eq_true, if_false, if_pos hcap]

/-- C7 witness: registering a fresh bare callback on a fresh emitter
succeeds, a re-registration is a no-op, and one emit dispatches to it
exactly once. -/
theorem c7_dedup_cap_amended_witness :
    EventEmitter.addListener ⟨0, false, 32, [("e", [⟨.bare 5, none, false⟩])]⟩ "e"
        (.bare 5) none false
      = .ok ⟨0, false, 32, [("e", [⟨.bare 5, none, false⟩])]⟩ ∧
    ((EventEmitter.emit ⟨0, false, 32, [("e", [⟨.bare 5, none, false⟩])]⟩ "e").2.2.filter
        (fun c => c == .bare 5)).length = 1 :=
  (c7_dedup_cap_amended (EventEmitter.init none) "e" (.bare 5) none false false rfl rfl).1
    ⟨0, false, 32, [("e", [⟨.bare 5, none, false⟩])]⟩ rfl

/-- C7 counterexample: two distinct `AbstractEvent` wrapper objects
around the same underlying callback (identity 10) are NOT
deduplicated — the second registration adds a second subscription and
one emit dispatches to the underlying callback twice — refuting the
claim that registration dedups by underlying callback identity
"unwrapping a wrapper on either side". -/
theorem c7_counterexample :
    EventEmitter.addListener ⟨0, false, 32, [("e", [⟨.wrapped 1 10, none, false⟩])]⟩ "e"
        (.wrapped 2 10) none false
      = .ok ⟨0, false, 32,
          [("e", [⟨.wrapped 1 10, none, false⟩, ⟨.wrapped 2 10, none, false⟩])]⟩ ∧
    ((EventEmitter.emit ⟨0, false, 32,
        [("e", [⟨.wrapped 1 10, none, false⟩, ⟨.wrapped 2 10, none, false⟩])]⟩ "e").2.2.map
      CB.underlying) = [10, 10] :=
  ⟨rfl, rfl⟩

/-! ### Helper lemmas: server registry -/

theorem set_self_of_getElem? {α : Type} {l : List α} {i : Nat} {a : α}
    (h : l[i]? = some a) : l.set i a = l := by
  apply List.ext_getElem?
  intro n
  rw [List.getElem?_set]
  by_cases hn : i = n
  · subst hn
    obtain ⟨hlt, hval⟩ := List.getElem?_eq_some_iff.mp h
    rw [if_pos rfl, if_pos hlt, ← hval]
    exact (List.getElem?_eq_some_iff.mpr ⟨hlt, rfl⟩).symm
  · rw [if_neg hn]

theorem closeAllClients_spec :
    ∀ cl : List (SocketAddrV × TCPSocketState),
      (∀ p ∈ cl, p.2.disposed = false) →
      ∃ cl', closeAllClients cl = .ok cl' ∧
        cl'.map Prod.fst = cl.map Prod.fst ∧
        ∀ p ∈ cl', p.2.closed = true := by
  intro cl
  induction cl with
  | nil =>
    intro _
    exact ⟨[], rfl, rfl, by simp⟩
  | cons p rest ihc =>
    intro hnd
    obtain ⟨a, sk⟩ := p
    have hskd : sk.disposed = false := hnd (a, sk) (by simp)
    obtain ⟨cl', hcl', hfst, hclosed⟩ := ihc (fun q hq => hnd q (by simp [hq]))
    have hclose : sk.close = .ok (if sk.closed then sk else { sk with closed := true }) := by
      unfold TCPSocketState.close
      rw [if_neg (by simp [hskd])]
      split <;> simp
    refine ⟨(a, if sk.closed then sk else { sk with closed := true }) :: cl', ?_, ?_, ?_⟩
    · simp only [closeAllClients, hclose, ebind_ok, hcl']
    · simpa using hfst
    · intro q hq
      rcases List.mem_cons.mp hq with h1 | h2
      · subst h1
        split <;> simp_all
      · exact hclosed q h2

/-- C8 (amended): the connection registry's lifecycle is: an entry is
appended on every accepted connection (none when the cancellation token
already fired, in which case the raw stream is destroyed instead); a
client connection closing does NOT remove its entry — the socket object
merely transitions to closed and the registry keys are unchanged, there
being no close handler that deletes from the registry; server disposal
force-closes every registered (non-disposed) connection and clears the
registry.  ("Removed on client close" fails on the code — see the
counterexample.) -/
theorem c8_registry_amended (w : TCPServerState) (remote : SocketAddrV) (i : Nat) :
    (TCPServerState.accept w false remote).clients
        = w.clients ++ [(remote, ⟨false, false, false⟩)] ∧
    TCPServerState.accept w true remote = w ∧
    (∀ w', TCPServerState.clientClose w i = .ok w' →
        w'.clients.map Prod.fst = w.clients.map Prod.fst) ∧
    (w.disposed = false → (∀ p ∈ w.clients, p.2.disposed = false) →
        ∃ former, TCPServerState.dispose w
            = .ok ({ w with closed := true, settings := [], clients := [], disposed := true }, former) ∧
          former.map Prod.fst = w.clients.map Prod.fst ∧
          ∀ p ∈ former, p.2.closed = true) := by
  refine ⟨by simp [TCPServerState.accept], by simp [TCPServerState.accept], ?_, ?_⟩
  · intro w' hok
    unfold TCPServerState.clientClose at hok
    cases hg : w.clients.get? i with
    | none =>
      rw [hg] at hok
      injection hok with hx
      rw [← hx]
    | some p =>
      rw [hg] at hok
      cases hc : p.2.close with
      | error err => simp [hc] at hok
      | ok sk' =>
        simp only [hc] at hok
        injection hok with hx
        rw [← hx]
        simp only
        rw [List.map_set]
        have hp : (w.clients.map Prod.fst)[i]? = some p.1 := by
          rw [List.getElem?_map, ← List.get?_eq_getElem?, hg]
          rfl
        exact set_self_of_getElem? hp
  · intro hnd hcl
    obtain ⟨cl', hcl', hfst, hclosed⟩ := closeAllClients_spec w.clients hcl
    refine ⟨cl', ?_, hfst, hclosed⟩
    unfold TCPServerState.dispose
    rw [if_neg (by simp [hnd])]
    simp only [hcl', ebind_ok]

/-- C8 witness: disposing a server holding one live registered
connection force-closes it and clears the registry. -/
theorem c8_registry_amended_witness :
    ∃ former, TCPServerState.dispose
        ⟨[(⟨"127.0.0.1", 4000, 2⟩, ⟨false, false, false⟩)], [], false, false, true⟩
        = .ok (⟨[], [], true, true, true⟩, former) ∧
      former.map Prod.fst
        = ([(⟨"127.0.0.1", 4000, 2⟩, (⟨false, false, false⟩ : TCPSocketState))].map Prod.fst) ∧
      ∀ p ∈ former, p.2.closed = true :=
  (c8_registry_amended
      ⟨[(⟨"127.0.0.1", 4000, 2⟩, ⟨false, false, false⟩)], [], false, false, true⟩
      ⟨"127.0.0.1", 4000, 2⟩ 0).2.2.2 rfl (by decide)

/-- C8 counterexample: a registered client connection closes, yet its
registry entry is not removed — the registry still holds one entry
(there is no close handler deleting from `#clients`), refuting "the
entry for a client is removed when that client connection closes". -/
theorem c8_counterexample :
    TCPServerState.clientClose
        ⟨[(⟨"127.0.0.1", 4000, 2⟩, ⟨false, false, false⟩)], [], false, false, true⟩ 0
      = .ok ⟨[(⟨"127.0.0.1", 4000, 2⟩, ⟨true, false, false⟩)], [], false, false, true⟩ ∧
    ([((⟨"127.0.0.1", 4000, 2⟩ : SocketAddrV), (⟨true, false, false⟩ : TCPSocketState))]).length
      = 1 :=
  ⟨rfl, rfl⟩

/-- C9 (amended): on a listening, non-disposed endpoint, a request
whose lowercased method is neither `options` nor `post` is answered
405; a `post` whose pathname STRIPPED OF EVERY SLASH differs from
`webhook` is answered 418.  (As stated the claim fails: the source
deletes all slashes before comparing, so e.g. the path `/web/hook`,
which is not `/webhook`, passes the check — see the counterexample.) -/
theorem c9_webhook_amended (hash : List Nat → List Nat)
    (marshalEnc : SValue → Option SValue) (decrypt : List Nat → List Nat → List Nat)
    (st : WebhookState) (opts : WebhookOpts) (req : HttpRequest)
    (hl : st.listening = true) (hd : st.disposed = false) :
    ((jsToLower req.method ≠ "options" ∧ jsToLower req.method ≠ "post") →
        WebhookServer.handleIncoming hash marshalEnc decrypt st opts req = 405) ∧
    (jsToLower req.method = "post" → stripSlashes req.pathname ≠ "webhook" →
        WebhookServer.handleIncoming hash marshalEnc decrypt st opts req = 418) := by
  unfold WebhookServer.handleIncoming
  rw [hl, hd]
  constructor
  · rintro ⟨h1, h2⟩
    simp [h1, h2]
  · intro h1 h2
    have hno : jsToLower req.method ≠ "options" := by
      rw [h1]
      decide
    simp [h1, h2, hno]

/-- C9 witness: a GET to the webhook path on a live endpoint is
answered 405. -/
theorem c9_webhook_amended_witness :
    WebhookServer.handleIncoming (fun b => b) (fun _ => none) (fun _ b => b)
        ⟨false, false, false, true⟩ ⟨none, none, none⟩ ⟨"GET", "/webhook", []⟩ = 405 :=
  (c9_webhook_amended (fun b => b) (fun _ => none) (fun _ b => b)
      ⟨false, false, false, true⟩ ⟨none, none, none⟩ ⟨"GET", "/webhook", []⟩ rfl rfl).1
    ⟨by decide, by decide⟩

/-- C9 counterexample: a POST to `/web/hook` — a path other than
`/webhook` — is NOT answered 418: the slash-deleting comparison lets it
through to body handling, which answers 412 for the empty body. -/
theorem c9_counterexample :
    WebhookServer.handleIncoming (fun b => b) (fun _ => none) (fun _ b => b)
        ⟨false, false, false, true⟩ ⟨none, none, none⟩ ⟨"POST", "/web/hook", []⟩ = 412 ∧
    "/web/hook" ≠ "/webhook" :=
  ⟨rfl, by decide⟩

/-! ### Helper lemmas: error classification for `parseMessage` -/

/-- The errors the decoding layer can produce (everything the envelope
parser can see from `deserialize` and the reads below it). -/
def decodeErr (e : PErr) : Prop :=
  e = .endOfStream ∨ e = .assertionFailed ∨ e = .unsupportedOperation ∨ e = .fuelExhausted

theorem read_err_cases {r : BufferReader} {b : Option Int} {e : PErr}
    (h : BufferReader.read r b = .error e) : decodeErr e := by
  unfold BufferReader.read at h
  by_cases hle : r.buf.length ≤ r.pos
  · rw [if_pos hle] at h
    injection h with hx
    exact Or.inl hx.symm
  · rw [if_neg hle] at h
    cases b with
    | none => exact absurd h (by simp)
    | some n =>
      by_cases hn : n < 0
      · simp only [hn, if_pos] at h
        injection h with hx
        exact Or.inr (Or.inl hx.symm)
      · simp only [hn, if_neg, if_false] at h
        exact absurd h (by simp)

theorem readIntVQLAux_err_cases :
    ∀ (fuel : Nat) (r : BufferReader) (n v : Nat) {e : PErr},
      readIntVQLAux fuel r n v = .error e → decodeErr e := by
  intro fuel
  induction fuel with
  | zero =>
    intro r n v e h
    injection h with hx
    exact Or.inl hx.symm
  | succ f ihf =>
    intro r n v e h
    simp only [readIntVQLAux] at h
    cases hr : r.read (some 1) with
    | error e1 =>
      rw [hr] at h
      injection h with hx
      have hc := read_err_cases hr
      rwa [hx] at hc
    | ok pr =>
      obtain ⟨chunk, r'⟩ := pr
      rw [hr] at h
      simp only at h
      split at h
      · exact absurd h (by simp)
      · exact ihf _ _ _ h

theorem readIntVQL_err_cases {r : BufferReader} {e : PErr}
    (h : readIntVQL r = .error e) : decodeErr e :=
  readIntVQLAux_err_cases _ _ _ _ h

theorem deserializeLoop_err_cases
    {p : BufferReader → Except PErr (SValue × BufferReader)}
    (hp : ∀ (r : BufferReader) (e : PErr), p r = .error e → decodeErr e) :
    ∀ (k : Nat) (r : BufferReader) (e : PErr),
      deserializeLoop p k r = .error e → decodeErr e := by
  intro k
  induction k with
  | zero =>
    intro r e h
    exact absurd h (by simp [deserializeLoop])
  | succ k ihk =>
    intro r e h
    simp only [deserializeLoop] at h
    cases hv : p r with
    | error e1 =>
      rw [hv, ebind_err] at h
      injection h with hx
      have hc := hp r e1 hv
      rwa [hx] at hc
    | ok pv =>
      obtain ⟨v, r'⟩ := pv
      rw [hv, ebind_ok] at h
      cases hl : deserializeLoop p k r' with
      | error e2 =>
        rw [hl, ebind_err] at h
        injection h with hx
        have hc := ihk r' e2 hl
        rwa [hx] at hc
      | ok pl =>
        obtain ⟨vs, r''⟩ := pl
        rw [hl, ebind_ok] at h
        exact absurd h (by simp)

theorem deserialize_err_cases :
    ∀ (fuel : Nat) (r : BufferReader) (e : PErr),
      deserialize fuel r = .error e → decodeErr e := by
  intro fuel
  induction fuel with
  | zero =>
    intro r e h
    injection h with hx
    exact Or.inr (Or.inr (Or.inr hx.symm))
  | succ fuel ihf =>
    intro r e h
    simp only [deserialize] at h
    cases hr : r.read (some 1) with
    | error e1 =>
      rw [hr, ebind_err] at h
      injection h with hx
      have hc := read_err_cases hr
      rwa [hx] at hc
    | ok pr =>
      obtain ⟨chunk, r1⟩ := pr
      rw [hr, ebind_ok] at h
      split at h
      · exact absurd h (by simp)
      · cases hv : readIntVQL r1 with
        | error e1 =>
          rw [hv, ebind_err] at h
          injection h with hx
          have hc := readIntVQL_err_cases hv
          rwa [hx] at hc
        | ok pv =>
          obtain ⟨len, r2⟩ := pv
          rw [hv, ebind_ok] at h
          cases hrd : r2.read (some len) with
          | error e2 =>
            rw [hrd, ebind_err] at h
            injection h with hx
            have hc := read_err_cases hrd
            rwa [hx] at hc
          | ok prd =>
            obtain ⟨s, r3⟩ := prd
            rw [hrd, ebind_ok] at h
            exact absurd h (by simp)
      · cases hv : readIntVQL r1 with
        | error e1 =>
          rw [hv, ebind_err] at h
          injection h with hx
          have hc := readIntVQL_err_cases hv
          rwa [hx] at hc
        | ok pv =>
          obtain ⟨len, r2⟩ := pv
          rw [hv, ebind_ok] at h
          exact absurd h (by simp)
      · cases hv : readIntVQL r1 with
        | error e1 =>
          rw [hv, ebind_err] at h
          injection h with hx
          have hc := readIntVQL_err_cases hv
          rwa [hx] at hc
        | ok pv =>
          obtain ⟨len, r2⟩ := pv
          rw [hv, ebind_ok] at h
          cases hrd : r2.read (some len) with
          | error e2 =>
            rw [hrd, ebind_err] at h
            injection h with hx
            have hc := read_err_cases hrd
            rwa [hx] at hc
          | ok prd =>
            obtain ⟨s, r3⟩ := prd
            rw [hrd, ebind_ok] at h
            exact absurd h (by simp)
      · cases hv : readIntVQL r1 with
        | error e1 =>
          rw [hv, ebind_err] at h
          injection h with hx
          have hc := readIntVQL_err_cases hv
          rwa [hx] at hc
        | ok pv =>
          obtain ⟨len, r2⟩ := pv
          rw [hv, ebind_ok] at h
          cases hl : deserializeLoop (deserialize fuel) (if len < 0 then 0 else len.toNat) r2 with
          | error e2 =>
            rw [hl, ebind_err] at h
            injection h with hx
            have hc := deserializeLoop_err_cases (fun r e => ihf r e) _ r2 e2 hl
            rwa [hx] at hc
          | ok pl =>
            obtain ⟨vs, r3⟩ := pl
            rw [hl, ebind_ok] at h
            exact absurd h (by simp)
      · cases hv : readIntVQL r1 with
        | error e1 =>
          rw [hv, ebind_err] at h
          injection h with hx
          have hc := readIntVQL_err_cases hv
          rwa [hx] at hc
        | ok pv =>
          obtain ⟨len, r2⟩ := pv
          rw [hv, ebind_ok] at h
          cases hrd : r2.read (some len) with
          | error e2 =>
            rw [hrd, ebind_err] at h
            injection h with hx
            have hc := read_err_cases hrd
            rwa [hx] at hc
          | ok prd =>
            obtain ⟨s, r3⟩ := prd
            rw [hrd, ebind_ok] at h
            exact absurd h (by simp)
      · cases hv : readIntVQL r1 with
        | error e1 =>
          rw [hv, ebind_err] at h
          injection h with hx
          have hc := readIntVQL_err_cases hv
          rwa [hx] at hc
        | ok pv =>
          obtain ⟨len, r2⟩ := pv
          rw [hv, ebind_ok] at h
          cases hrd : r2.read (some len) with
          | error e2 =>
            rw [hrd, ebind_err] at h
            injection h with hx
            have hc := read_err_cases hrd
            rwa [hx] at hc
          | ok prd =>
            obtain ⟨s, r3⟩ := prd
            rw [hrd, ebind_ok] at h
            exact absurd h (by simp)
      · injection h with hx
        exact Or.inr (Or.inr (Or.inl hx.symm))

theorem parseStages_err_cases {msg : List Nat} {e : PErr}
    (h : parseStages msg = .error e) : decodeErr e := by
  simp only [parseStages] at h
  cases h1 : deserialize (msg.length + 1) ⟨msg, 0⟩ with
  | error e1 =>
    rw [h1, ebind_err] at h
    injection h with hx
    have hc := deserialize_err_cases _ _ _ h1
    rwa [hx] at hc
  | ok p1 =>
    obtain ⟨t, r1⟩ := p1
    rw [h1, ebind_ok] at h
    cases h2 : deserialize (msg.length + 1) r1 with
    | error e2 =>
      rw [h2, ebind_err] at h
      injection h with hx
      have hc := deserialize_err_cases _ _ _ h2
      rwa [hx] at hc
    | ok p2 =>
      obtain ⟨ev, r2⟩ := p2
      rw [h2, ebind_ok] at h
      cases h3 : deserialize (msg.length + 1) r2 with
      | error e3 =>
        rw [h3, ebind_err] at h
        injection h with hx
        have hc := deserialize_err_cases _ _ _ h3
        rwa [hx] at hc
      | ok p3 =>
        obtain ⟨hd, r3⟩ := p3
        rw [h3, ebind_ok] at h
        cases h4 : deserialize (msg.length + 1) r3 with
        | error e4 =>
          rw [h4, ebind_err] at h
          injection h with hx
          have hc := deserialize_err_cases _ _ _ h4
          rwa [hx] at hc
        | ok p4 =>
          obtain ⟨p0, r4⟩ := p4
          rw [h4, ebind_ok] at h
          exact absurd h (by simp)

theorem resolvePayload_invalidArgument (decrypt : List Nat → List Nat → List Nat)
    (isEnc : Bool) (p0 : SValue) (key : Option (List Nat)) :
    resolvePayload decrypt isEnc p0 key = .error .invalidArgument ↔
      (isEnc = true ∧ (∃ pb, p0 = .vbuf pb) ∧ key = none) := by
  unfold resolvePayload
  cases isEnc with
  | false => simp
  | true =>
    cases p0 with
    | vnull => simp
    | vstr s => simp
    | vint n => simp
    | varr xs => simp
    | vmarshall b => simp
    | vobj b => simp
    | vbuf pb =>
      cases key with
      | none => simp
      | some k =>
        simp only
        constructor
        · intro h
          cases hd2 : deserialize ((decrypt k pb).length + 1) ⟨decrypt k pb, 0⟩ with
          | error e' =>
            rw [hd2] at h
            injection h with hx
            have hc := deserialize_err_cases _ _ _ hd2
            rw [hx] at hc
            rcases hc with h1 | h1 | h1 | h1 <;> exact absurd h1 (by simp)
          | ok pp =>
            obtain ⟨p, rr⟩ := pp
            rw [hd2] at h
            exact absurd h (by simp)
        · rintro ⟨_, _, hk⟩
          exact absurd hk (by simp)

/-- C3: `parseMessage` raises the invalid-argument error exactly when
the decoded encrypted flag is the number 1, the decoded payload is
binary, and no encryption key was supplied; once the stages up to the
recomputed digest succeed, any byte-for-byte mismatch between the
recomputed digest and the decoded signature raises the
invalid-signature error; and a successful parse implies the decoded
signature equals the recomputed digest — in every failure case the
result is an error and no partial `ParsedMsg` is produced (the model
returns through `Except`, as the source returns through exceptions). -/
theorem c3_parseMessage_errors (hash : List Nat → List Nat)
    (marshalEnc : SValue → Option SValue) (decrypt : List Nat → List Nat → List Nat)
    (msg : List Nat) (key : Option (List Nat)) :
    (parseMessage hash marshalEnc decrypt msg key = .error .invalidArgument ↔
      (key = none ∧ ∃ t ev hd pb r4, parseStages msg = .ok (t, ev, hd, .vbuf pb, r4) ∧
        isFlagOne ev = true)) ∧
    (∀ t ev hd p0 r4, parseStages msg = .ok (t, ev, hd, p0, r4) →
      ∀ p, resolvePayload decrypt (isFlagOne ev) p0 key = .ok p →
      ∀ sa r5, deserialize (msg.length + 1) r4 = .ok (sa, r5) →
      ∀ d, signModel hash marshalEnc sa p hd = .ok d →
      ∀ sg r6, deserialize (msg.length + 1) r5 = .ok (.vbuf sg, r6) →
      sg ≠ d →
      parseMessage hash marshalEnc decrypt msg key = .error .invalidSignature) ∧
    (∀ pm, parseMessage hash marshalEnc decrypt msg key = .ok pm →
      ∃ t ev hd p0 r4 sa r5 d r6,
        parseStages msg = .ok (t, ev, hd, p0, r4) ∧
        resolvePayload decrypt (isFlagOne ev) p0 key = .ok pm.payload ∧
        deserialize (msg.length + 1) r4 = .ok (sa, r5) ∧
        signModel hash marshalEnc sa pm.payload hd = .ok d ∧
        deserialize (msg.length + 1) r5 = .ok (.vbuf d, r6) ∧
        pm = ⟨t, hd, pm.payload⟩) := by
  refine ⟨?_, ?_, ?_⟩
  · -- (a) the invalid-argument characterization
    cases hps : parseStages msg with
    | error e1 =>
      constructor
      · intro h
        exfalso
        simp only [parseMessage, hps, ebind_err] at h
        injection h with hx
        have hc := parseStages_err_cases hps
        rw [hx] at hc
        rcases hc with h1 | h1 | h1 | h1 <;> simp at h1
      · rintro ⟨hk, t, ev, hd, pb, r4, hps', hflag⟩
        exact absurd hps' (by simp)
    | ok q =>
      obtain ⟨t, ev, hd, p0, r4⟩ := q
      cases hrp : resolvePayload decrypt (isFlagOne ev) p0 key with
      | error e2 =>
        constructor
        · intro h
          simp only [parseMessage, hps, ebind_ok, hrp, ebind_err] at h
          injection h with hx
          rw [hx] at hrp
          obtain ⟨hf, ⟨pb, hpb⟩, hk⟩ :=
            (resolvePayload_invalidArgument decrypt _ p0 key).mp hrp
          subst hpb
          exact ⟨hk, t, ev, hd, pb, r4, rfl, hf⟩
        · rintro ⟨hk, t', ev', hd', pb, r4', hps', hflag⟩
          simp only [Except.ok.injEq, Prod.mk.injEq] at hps'
          obtain ⟨ht, hev, hhd, hp0, hr4⟩ := hps'
          have hres := (resolvePayload_invalidArgument decrypt (isFlagOne ev) p0 key).mpr
            ⟨by rw [hev]; exact hflag, ⟨pb, hp0⟩, hk⟩
          rw [hrp] at hres
          injection hres with hx
          rw [hx] at hrp
          simp only [parseMessage, hps, ebind_ok, hrp, ebind_err]
      | ok p =>
        constructor
        · intro h
          exfalso
          simp only [parseMessage, hps, ebind_ok, hrp] at h
          cases hsa : deserialize (msg.length + 1) r4 with
          | error e3 =>
            rw [hsa, ebind_err] at h
            injection h with hx
            have hc := deserialize_err_cases _ _ _ hsa
            rw [hx] at hc
            rcases hc with h1 | h1 | h1 | h1 <;> simp at h1
          | ok psa =>
            obtain ⟨sa, r5⟩ := psa
            rw [hsa, ebind_ok] at h
            cases hsm : signModel hash marshalEnc sa p hd with
            | error e4 =>
              rw [hsm, ebind_err] at h
              injection h with hx
              have he4 : e4 = .notImplemented := by
                unfold signModel at hsm
                split at hsm
                · exact absurd hsm (by simp)
                · injection hsm with hy
                  exact hy.symm
              rw [he4] at hx
              exact PErr.noConfusion hx
            | ok d =>
              rw [hsm, ebind_ok] at h
              cases hsg : deserialize (msg.length + 1) r5 with
              | error e5 =>
                rw [hsg, ebind_err] at h
                injection h with hx
                have hc := deserialize_err_cases _ _ _ hsg
                rw [hx] at hc
                rcases hc with h1 | h1 | h1 | h1 <;> simp at h1
              | ok psg =>
                obtain ⟨sigV, r6⟩ := psg
                rw [hsg, ebind_ok] at h
                cases sigV with
                | vbuf sig =>
                  simp only at h
                  split at h
                  · exact absurd h (by simp)
                  · injection h with hx
                    exact PErr.noConfusion hx
                | vnull => simp only at h; injection h with hx; exact PErr.noConfusion hx
                | vstr s => simp only at h; injection h with hx; exact PErr.noConfusion hx
                | vint n => simp only at h; injection h with hx; exact PErr.noConfusion hx
                | varr xs => simp only at h; injection h with hx; exact PErr.noConfusion hx
                | vmarshall b => simp only at h; injection h with hx; exact PErr.noConfusion hx
                | vobj b => simp only at h; injection h with hx; exact PErr.noConfusion hx
        · rintro ⟨hk, t', ev', hd', pb, r4', hps', hflag⟩
          exfalso
          simp only [Except.ok.injEq, Prod.mk.injEq] at hps'
          obtain ⟨ht, hev, hhd, hp0, hr4⟩ := hps'
          have hres := (resolvePayload_invalidArgument decrypt (isFlagOne ev) p0 key).mpr
            ⟨by rw [hev]; exact hflag, ⟨pb, hp0⟩, hk⟩
          rw [hrp] at hres
          exact absurd hres (by simp)
  · -- (b) signature mismatch
    intro t ev hd p0 r4 hps p hrp sa r5 hsa d hsm sg r6 hsg hne
    simp only [parseMessage, hps, ebind_ok, hrp, hsa, hsm, hsg]
    rw [if_neg (fun hx => hne (Eq.symm hx))]
  · -- (c) success implies the signature comparison passed
    intro pm h
    simp only [parseMessage] at h
    cases hps : parseStages msg with
    | error e1 => rw [hps, ebind_err] at h; exact absurd h (by simp)
    | ok q =>
      obtain ⟨t, ev, hd, p0, r4⟩ := q
      rw [hps, ebind_ok] at h
      cases hrp : resolvePayload decrypt (isFlagOne ev) p0 key with
      | error e2 => rw [hrp, ebind_err] at h; exact absurd h (by simp)
      | ok p =>
        rw [hrp, ebind_ok] at h
        cases hsa : deserialize (msg.length + 1) r4 with
        | error e3 => rw [hsa, ebind_err] at h; exact absurd h (by simp)
        | ok psa =>
          obtain ⟨sa, r5⟩ := psa
          rw [hsa, ebind_ok] at h
          cases hsm : signModel hash marshalEnc sa p hd with
          | error e4 => rw [hsm, ebind_err] at h; exact absurd h (by simp)
          | ok d =>
            rw [hsm, ebind_ok] at h
            cases hsg : deserialize (msg.length + 1) r5 with
            | error e5 => rw [hsg, ebind_err] at h; exact absurd h (by simp)
            | ok psg =>
              obtain ⟨sigV, r6⟩ := psg
              rw [hsg, ebind_ok] at h
              cases sigV with
              | vbuf sig =>
                simp only at h
                by_cases hcs : d = sig
                · rw [if_pos hcs] at h
                  injection h with hx
                  have hpm : pm = ⟨t, hd, p⟩ := hx.symm
                  have hpay : pm.payload = p := by rw [hpm]
                  subst hcs
                  refine ⟨t, ev, hd, p0, r4, sa, r5, d, r6, rfl, ?_, hsa, ?_, hsg, ?_⟩
                  · rw [hpay]
                    exact hrp
                  · rw [hpay]
                    exact hsm
                  · rw [hpm]
                · rw [if_neg hcs] at h
                  exact absurd h (by simp)
              | vnull => simp only at h; exact absurd h (by simp)
              | vstr s => simp only at h; exact absurd h (by simp)
              | vint n => simp only at h; exact absurd h (by simp)
              | varr xs => simp only at h; exact absurd h (by simp)
              | vmarshall b => simp only at h; exact absurd h (by simp)
              | vobj b => simp only at h; exact absurd h (by simp)


/-- C3 witness: a concrete encrypted-flagged message with a binary
payload, parsed without a key, raises the invalid-argument error. -/
theorem c3_parseMessage_errors_witness :
    parseMessage (fun b => b) (fun _ => none) (fun _ b => b)
        [1, 1, 116, 2, 1, 3, 2, 123, 125, 6, 2, 5, 6, 2, 7, 6, 1, 9] none
      = .error .invalidArgument :=
  (c3_parseMessage_errors (fun b => b) (fun _ => none) (fun _ b => b)
      [1, 1, 116, 2, 1, 3, 2, 123, 125, 6, 2, 5, 6, 2, 7, 6, 1, 9] none).1.mpr
    ⟨rfl, .vstr [116], .vint 1, .vobj [123, 125], [5, 6],
      ⟨[1, 1, 116, 2, 1, 3, 2, 123, 125, 6, 2, 5, 6, 2, 7, 6, 1, 9], 13⟩, rfl, rfl⟩
